import Mathlib

/-! # go-s3-backup: the Tarball service and the service command assembly

A shallow embedding of `services/tarball.go`, `cmd/go-s3-backup/services.go` and
`cmd/config.go`, together with the parts of the Go standard library they call
(`path.Base`, `path.Clean`, `path.Dir`, `strings.HasSuffix`, `time.Time.Format`).

Go strings are modelled as lists of characters.  The library functions below only
ever inspect the ASCII characters `/` and `.`, so the byte-level and the
character-level readings agree.
-/

namespace GoS3Backup

/-- A Go `string`. -/
abbrev GoString := List Char

/-- A Go `bool`. -/
abbrev GoBool := Bool

/-! ## Package `path` of the Go standard library -/

namespace path

/-- The loop of `lastSlash`: `for i >= 0 && s[i] != '/' { i-- }`, where the argument
is `i + 1`; the result is `i + 1` as well, so `0` stands for the Go result `-1`. -/
def lastSlashFrom (s : GoString) : Nat → Nat
  | 0 => 0
  | i + 1 => if s[i]? ≠ some '/' then lastSlashFrom s i else i + 1

/-- `lastSlash(s) + 1`: the index just after the last slash of `s`, or `0` when `s`
holds no slash (Go returns `-1` there). -/
def lastSlashSucc (s : GoString) : Nat :=
  lastSlashFrom s s.length

/-- The first loop of `Base`:
`for len(path) > 0 && path[len(path)-1] == '/' { path = path[0 : len(path)-1] }`,
as the length that is kept. -/
def stripTrailingLen (s : GoString) : Nat → Nat
  | 0 => 0
  | n + 1 => if s[n]? = some '/' then stripTrailingLen s n else n + 1

/-- `path.Base`: the last element of a path. -/
def Base (p : GoString) : GoString :=
  if p = [] then ['.']
  else
    let p1 := p.take (stripTrailingLen p p.length)
    let p2 := p1.drop (lastSlashSucc p1)
    if p2 = [] then ['/'] else p2

/-- The inner loop of the `..` case of `Clean`:
`for out.w > dotdot && out.index(out.w) != '/' { out.w-- }`. -/
def backtrackW (out : GoString) (dotdot : Nat) : Nat → Nat
  | 0 => 0
  | w + 1 => if w + 1 > dotdot ∧ out[w + 1]? ≠ some '/' then backtrackW out dotdot w else w + 1

/-- The `..` case of `Clean` when it can backtrack: `out.w--` followed by the inner
loop; the buffer is cut at the resulting `w`. -/
def backtrack (out : GoString) (dotdot : Nat) : GoString :=
  out.take (backtrackW out dotdot (out.length - 1))

/-- The state of the main loop of `Clean`: the written part of the buffer
(`buf[:w]`) and `dotdot`. -/
structure CleanState where
  out : GoString
  dotdot : Nat
deriving DecidableEq, Repr

/-- The main loop `for r < n { switch ... }` of `Clean`.  The second argument is the
unread input `path[r:]`; the first bounds the number of iterations (every iteration
reads at least one byte, so `len(path)` iterations suffice). -/
def cleanLoop (rooted : Bool) : Nat → GoString → CleanState → CleanState
  | 0, _, st => st
  | _ + 1, [], st => st
  | fuel + 1, c :: rest, st =>
    if c = '/' then
      -- empty path element
      cleanLoop rooted fuel rest st
    else if c = '.' ∧ (rest = [] ∨ rest.head? = some '/') then
      -- . element
      cleanLoop rooted fuel rest st
    else if c = '.' ∧ rest.head? = some '.' ∧ (rest.tail = [] ∨ rest.tail.head? = some '/') then
      -- .. element: remove to last /
      if st.out.length > st.dotdot then
        cleanLoop rooted fuel rest.tail ⟨backtrack st.out st.dotdot, st.dotdot⟩
      else if rooted = false then
        let out1 := if st.out.length > 0 then st.out ++ ['/'] else st.out
        let out2 := out1 ++ ['.', '.']
        cleanLoop rooted fuel rest.tail ⟨out2, out2.length⟩
      else
        cleanLoop rooted fuel rest.tail st
    else
      -- real path element: add slash if needed, copy element
      let out1 :=
        if (rooted = true ∧ st.out.length ≠ 1) ∨ (rooted = false ∧ st.out.length ≠ 0)
        then st.out ++ ['/'] else st.out
      cleanLoop rooted fuel ((c :: rest).dropWhile (· ≠ '/'))
        ⟨out1 ++ (c :: rest).takeWhile (· ≠ '/'), st.dotdot⟩

/-- Is the path rooted: `path[0] == '/'`. -/
def isRooted (p : GoString) : Bool :=
  p.head? = some '/'

/-- The state `Clean` starts its loop in, and the input left to read. -/
def cleanInit (p : GoString) : CleanState :=
  if isRooted p then ⟨['/'], 1⟩ else ⟨[], 0⟩

/-- The state `Clean` ends its loop in. -/
def cleanRun (p : GoString) : CleanState :=
  cleanLoop (isRooted p) p.length (if isRooted p then p.tail else p) (cleanInit p)

/-- `path.Clean`: the shortest path name equivalent to `p` by purely lexical
processing. -/
def Clean (p : GoString) : GoString :=
  if p = [] then ['.']
  else
    let st := cleanRun p
    if st.out.length = 0 then ['.'] else st.out

/-- `path.Split`: the path up to and including the last slash, and the rest. -/
def Split (p : GoString) : GoString × GoString :=
  (p.take (lastSlashSucc p), p.drop (lastSlashSucc p))

/-- `path.Dir`: all but the last element of a path, cleaned. -/
def Dir (p : GoString) : GoString :=
  Clean (Split p).1

/-- The main loop of `Clean` with as many iterations as there are bytes to read. -/
def run (rooted : Bool) (p : GoString) (st : CleanState) : CleanState :=
  cleanLoop rooted p.length p st

/-- The state change of the `..` case of `Clean`. -/
def dotdotStep (rooted : Bool) (st : CleanState) : CleanState :=
  if st.out.length > st.dotdot then ⟨backtrack st.out st.dotdot, st.dotdot⟩
  else if rooted = false then
    ⟨(if st.out.length > 0 then st.out ++ ['/'] else st.out) ++ ['.', '.'],
      ((if st.out.length > 0 then st.out ++ ['/'] else st.out) ++ ['.', '.']).length⟩
  else st

/-- The buffer after the "add slash if needed" step of the default case of `Clean`. -/
def withSlash (rooted : Bool) (out : GoString) : GoString :=
  if (rooted = true ∧ out.length ≠ 1) ∨ (rooted = false ∧ out.length ≠ 0)
  then out ++ ['/'] else out

/-- The state change of the default case of `Clean`, for the element `e`. -/
def elemStep (rooted : Bool) (st : CleanState) (e : GoString) : CleanState :=
  ⟨withSlash rooted st.out ++ e, st.dotdot⟩

/-- The read position is at the end of the path or at a slash:
`r == n || path[r] == '/'`. -/
def atEnd (l : GoString) : Prop :=
  l = [] ∨ l.head? = some '/'

instance (l : GoString) : Decidable (atEnd l) := by
  unfold atEnd; infer_instance

/-- A real path element: not empty, without a slash, and neither `.` nor `..`. -/
def RealElem (e : GoString) : Prop :=
  e ≠ [] ∧ '/' ∉ e ∧ e ≠ ['.'] ∧ e ≠ ['.', '.']

/-- The state `Clean` starts its loop in, for a rooted or an unrooted path. -/
def initState (rooted : Bool) : CleanState :=
  if rooted then ⟨['/'], 1⟩ else ⟨[], 0⟩

/-- The states the loop of `Clean` can be in: the start state, a state after a real
element was copied, or (unrooted only) a state after a leading `..` was appended. -/
inductive Canon (rooted : Bool) : CleanState → Prop
  | init (st : CleanState) (h : st = initState rooted) : Canon rooted st
  | elem (st st' : CleanState) (e : GoString) (hc : Canon rooted st') (he : RealElem e)
      (h : st = elemStep rooted st' e) : Canon rooted st
  | dots (st st' : CleanState) (hr : rooted = false) (hc : Canon rooted st')
      (hl : st'.out.length = st'.dotdot)
      (h : st = ⟨(if st'.out.length > 0 then st'.out ++ ['/'] else st'.out) ++ ['.', '.'],
        ((if st'.out.length > 0 then st'.out ++ ['/'] else st'.out) ++ ['.', '.']).length⟩) :
      Canon rooted st

/-- What `Clean` has written when it starts to copy the last element of a path whose
part up to and including the last slash is `dir`: the cleaned directory part with the
separating slash, if one is needed. -/
def dirPrefix (dir : GoString) : GoString :=
  withSlash (isRooted dir) (cleanRun dir).out

end path

/-! ## `strings.HasSuffix` and `time.Time.Format` -/

namespace strings

/-- `strings.HasSuffix(s, suffix)`:
`len(s) >= len(suffix) && s[len(s)-len(suffix):] == suffix`. -/
def HasSuffix (s suffix : GoString) : Bool :=
  decide (s.length ≥ suffix.length) && decide (s.drop (s.length - suffix.length) = suffix)

end strings

/-- The calendar fields of a `time.Time` in its location, as `Date()` and `Clock()`
report them. -/
structure Time where
  year : Int
  month : Nat
  day : Nat
  hour : Nat
  minute : Nat
  second : Nat
deriving DecidableEq, Repr

/-- The fields of a `time.Time` lie in the calendar ranges. -/
def Time.Valid (t : Time) : Prop :=
  1 ≤ t.month ∧ t.month ≤ 12 ∧ 1 ≤ t.day ∧ t.day ≤ 31 ∧
    t.hour ≤ 23 ∧ t.minute ≤ 59 ∧ t.second ≤ 59

instance (t : Time) : Decidable t.Valid := by
  unfold Time.Valid; infer_instance

/-- `byte('0' + u)`. -/
def digitByte (u : Nat) : Char :=
  Char.ofNat (48 + u)

/-- The digit loop of `appendInt`:
`for u >= 10 { i--; q := u / 10; buf[i] = byte('0' + u - q*10); u = q }; i--; buf[i] = byte('0' + u)`.
The accumulator is `buf[i:]`; the first argument counts the free bytes of the 20-byte
buffer. -/
def appendIntDigits : Nat → Nat → GoString → GoString
  | 0, u, acc => digitByte u :: acc
  | free + 1, u, acc =>
    if u ≥ 10 then appendIntDigits free (u / 10) (digitByte (u - u / 10 * 10) :: acc)
    else digitByte u :: acc

/-- `appendInt(b, x, width)` of package `time`: the decimal form of `x`, with a
leading minus sign when negative, zero-padded to `width` digits. -/
def appendInt (b : GoString) (x : Int) (width : Nat) : GoString :=
  let b1 := if x < 0 then b ++ ['-'] else b
  let digits := appendIntDigits 19 x.natAbs []
  b1 ++ List.replicate (width - digits.length) '0' ++ digits

/-- `t.Format("20060102150405")`: the layout is the chunks `2006` (long year, width
4), `01` (zero month), `02` (zero day), `15` (hour), `04` (zero minute) and `05` (zero
second), each of the last five written by `appendInt` with width 2. -/
def Time.Format20060102150405 (t : Time) : GoString :=
  let b := appendInt [] t.year 4
  let b := appendInt b t.month 2
  let b := appendInt b t.day 2
  let b := appendInt b t.hour 2
  let b := appendInt b t.minute 2
  appendInt b t.second 2

/-- The `k` low decimal digits of `x`, most significant first. -/
def pad : Nat → Nat → GoString
  | 0, _ => []
  | k + 1, x => pad k (x / 10) ++ [digitByte (x % 10)]

/-- The wall-clock order of two times at one-second granularity: the order of the
tuples (year, month, day, hour, minute, second). -/
def Time.before (a b : Time) : Prop :=
  a.year < b.year ∨ (a.year = b.year ∧ (a.month < b.month ∨ (a.month = b.month ∧
    (a.day < b.day ∨ (a.day = b.day ∧ (a.hour < b.hour ∨ (a.hour = b.hour ∧
      (a.minute < b.minute ∨ (a.minute = b.minute ∧ a.second < b.second)))))))))

instance (a b : Time) : Decidable (a.before b) := by
  unfold Time.before; infer_instance

/-! ## `services/tarball.go` -/

namespace services

/-- The two archive formats of `github.com/mholt/archiver` the service uses:
`archiver.Tar` and `archiver.TarGz`. -/
inductive Codec
  | Tar
  | TarGz
deriving DecidableEq, Repr

/-- A call into the archiver: `Make(filepath, sources)` creates an archive,
`Open(filepath, destination)` unpacks one. -/
inductive ArchiverCall
  | Make (codec : Codec) (filepath : GoString) (sources : List GoString)
  | Open (codec : Codec) (filepath : GoString) (destination : GoString)
deriving DecidableEq, Repr

/-- What a method of the service runs in: the package variable `SaveDir`, the clock
read by `time.Now()`, and the archiver, which answers a call with `nil` (`none`) or an
error (its message). -/
structure Env where
  SaveDir : GoString
  now : Time
  archiver : ArchiverCall → Option GoString

/-- Tarball has the config options for the Tarball service. -/
structure Tarball where
  Name : GoString
  Path : GoString
  Compress : Bool
deriving DecidableEq, Repr

/-- The results `(string, error)` of `Backup`, with the archiver call it made. -/
structure BackupResult where
  filepath : GoString
  err : Option GoString
  call : ArchiverCall
deriving DecidableEq, Repr

/-- The result `error` of `Restore`, with the archiver call it made. -/
structure RestoreResult where
  err : Option GoString
  call : ArchiverCall
deriving DecidableEq, Repr

/-- The `name` variable of `Backup`. -/
def Tarball.backupName (f : Tarball) : GoString :=
  if f.Name ≠ [] then f.Name ++ "-backup".toList
  else path.Base f.Path ++ "-backup".toList

/-- The `filepath` variable of `Backup` when the archiver is called:
`path.Clean(fmt.Sprintf("%s/%s-%s.tar", SaveDir, name, time.Now().Format(...)))`,
followed by `.gz` when `Compress` is set. -/
def Tarball.backupFilepath (env : Env) (f : Tarball) : GoString :=
  let filepath := env.SaveDir ++ "/".toList ++ f.backupName ++ "-".toList ++
    env.now.Format20060102150405 ++ ".tar".toList
  let filepath := path.Clean filepath
  if f.Compress then filepath ++ ".gz".toList else filepath

/-- `Backup` creates a tarball of the specified directory. -/
def Tarball.Backup (env : Env) (f : Tarball) : BackupResult :=
  let filepath := f.backupFilepath env
  let call :=
    if f.Compress then ArchiverCall.Make Codec.TarGz filepath [f.Path]
    else ArchiverCall.Make Codec.Tar filepath [f.Path]
  match env.archiver call with
  | some err =>
    ⟨[], some ("cannot create tarball on ".toList ++ filepath ++ ", ".toList ++ err), call⟩
  | none => ⟨filepath, none, call⟩

/-- `Restore` extracts a tarball to the specified directory. -/
def Tarball.Restore (env : Env) (f : Tarball) (filepath : GoString) : RestoreResult :=
  let call :=
    if strings.HasSuffix filepath ".gz".toList then ArchiverCall.Open Codec.TarGz filepath f.Path
    else ArchiverCall.Open Codec.Tar filepath f.Path
  match env.archiver call with
  | some err =>
    ⟨some ("cannot unpack tarball on ".toList ++ filepath ++ ", ".toList ++ err), call⟩
  | none => ⟨none, call⟩

end services

/-! ## The command-line context (`gopkg.in/urfave/cli.v1`) -/

namespace cli

/-- A flag declaration: `altsrc.NewStringFlag(cli.StringFlag{Name, Usage, Value, EnvVar})`
or `altsrc.NewBoolFlag(cli.BoolFlag{Name, Usage, EnvVar})`.  A field the literal leaves
out holds the zero value. -/
inductive Flag
  | StringFlag (Name Usage Value EnvVar : GoString)
  | BoolFlag (Name Usage EnvVar : GoString)
deriving DecidableEq, Repr

/-- The value of an option. -/
inductive Value
  | str (s : GoString)
  | bool (b : Bool)
deriving DecidableEq, Repr

/-- The `Name` field of a flag. -/
def Flag.Name : Flag → GoString
  | .StringFlag n _ _ _ => n
  | .BoolFlag n _ _ => n

/-- The `EnvVar` field of a flag. -/
def Flag.EnvVar : Flag → GoString
  | .StringFlag _ _ _ e => e
  | .BoolFlag _ _ e => e

/-- The hard-coded default of a flag: the `Value` field of a string flag, `false` for a
boolean flag. -/
def Flag.Default : Flag → Value
  | .StringFlag _ _ v _ => .str v
  | .BoolFlag _ _ _ => .bool false

/-- The string a value stands for (the zero value for a value of another type). -/
def Value.asString : Value → GoString
  | .str s => s
  | .bool _ => []

/-- The boolean a value stands for (the zero value for a value of another type). -/
def Value.asBool : Value → Bool
  | .str _ => false
  | .bool b => b

/-- The methods of `*cli.Context` the configuration builders call.  `Parent` is `none`
for the nil pointer. -/
inductive Context
  | mk (string : GoString → GoString) (bool : GoString → Bool)
      (stringSlice : GoString → List GoString) (globalString : GoString → GoString)
      (globalBool : GoString → Bool) (parent : Option Context)

/-- `c.String(name)`. -/
def Context.String : Context → GoString → GoString
  | .mk f _ _ _ _ _ => f

/-- `c.Bool(name)`. -/
def Context.Bool : Context → GoString → GoBool
  | .mk _ f _ _ _ _ => f

/-- `c.StringSlice(name)`. -/
def Context.StringSlice : Context → GoString → List GoString
  | .mk _ _ f _ _ _ => f

/-- `c.GlobalString(name)`. -/
def Context.GlobalString : Context → GoString → GoString
  | .mk _ _ _ f _ _ => f

/-- `c.GlobalBool(name)`. -/
def Context.GlobalBool : Context → GoString → GoBool
  | .mk _ _ _ _ f _ => f

/-- `c.Parent()`. -/
def Context.Parent : Context → Option Context
  | .mk _ _ _ _ _ p => p

/-- Modelled from the spec: `applyConfigValues` is not under src/.  The `Before` hook
it returns is the configuration-file overlay ("a generic config-file overlay providing
defaults below flags/env but above hard-coded defaults") for the flags it is given;
the hook is recorded as that flag list. -/
structure BeforeFunc where
  overlay : List Flag
deriving DecidableEq, Repr

/-- A `cli.Command` literal with the fields the service commands set. -/
inductive Command
  | mk (Name Usage : GoString) (Flags : List Flag) (Before : BeforeFunc)
      (Subcommands : List Command)

/-- The `Name` field of a command. -/
def Command.Name : Command → GoString
  | .mk n _ _ _ _ => n

/-- The `Usage` field of a command. -/
def Command.Usage : Command → GoString
  | .mk _ u _ _ _ => u

/-- The `Flags` field of a command. -/
def Command.Flags : Command → List Flag
  | .mk _ _ f _ _ => f

/-- The `Before` field of a command. -/
def Command.Before : Command → BeforeFunc
  | .mk _ _ _ b _ => b

/-- The `Subcommands` field of a command. -/
def Command.Subcommands : Command → List Command
  | .mk _ _ _ _ s => s

end cli

/-! ## The configuration resolver -/

/-- Modelled from the spec: the three external sources of an option value that the
ConfigResolver consults before the hard-coded default: the explicit command-line flag
(by flag name), the environment variable (by variable name) and the configuration file
(by flag name).  `none` is "not given", "not set", "not present". -/
structure Sources where
  flag : GoString → Option cli.Value
  env : GoString → Option cli.Value
  file : GoString → Option cli.Value

/-- Modelled from the spec: `applyConfigValues` (its definition is not under src/),
the hook that lays the configuration file under the given flags. -/
def applyConfigValues (flags : List cli.Flag) : cli.BeforeFunc :=
  ⟨flags⟩

/-- Modelled from the spec: the resolution of one declared option by the
ConfigResolver (the flag-parsing code is not under src/): the explicit flag, else the
environment variable, else the configuration-file value, which is consulted for the
flags the `Before` hook of the command was built from, else the default. -/
def resolveOption (src : Sources) (before : cli.BeforeFunc) (f : cli.Flag) : cli.Value :=
  match src.flag f.Name with
  | some v => v
  | none =>
    match src.env f.EnvVar with
    | some v => v
    | none =>
      match (if f ∈ before.overlay then src.file f.Name else none) with
      | some v => v
      | none => f.Default

/-- Modelled from the spec: the value a context of command `cmd` holds for the option
called `name`: the resolution of the flag of that name the command declares, if any. -/
def lookupOption (src : Sources) (cmd : cli.Command) (name : GoString) : Option cli.Value :=
  (cmd.Flags.find? (fun f => f.Name = name)).map (resolveOption src cmd.Before)

/-- Modelled from the spec: the context a command runs its subcommands under, given
the sources and the context of the application above it.  Options the command does not
declare read as the zero value; global lookups go to the parent. -/
def commandContext (src : Sources) (cmd : cli.Command) (app : cli.Context) : cli.Context :=
  .mk (fun name => ((lookupOption src cmd name).map cli.Value.asString).getD [])
    (fun name => ((lookupOption src cmd name).map cli.Value.asBool).getD false)
    (fun _ => [])
    (fun name => app.String name)
    (fun name => app.Bool name)
    (some app)

/-- The precedence chain in the words of the spec, for an option given by its flag name,
its environment variable and its default: "explicit command-line flag > environment
variable > configuration-file value > hard-coded default". -/
def precedence (src : Sources) (name envVar : GoString) (dflt : cli.Value) : cli.Value :=
  (src.flag name).getD ((src.env envVar).getD ((src.file name).getD dflt))

/-- The precedence chain of a declared flag. -/
def precedenceChain (src : Sources) (f : cli.Flag) : cli.Value :=
  precedence src f.Name f.EnvVar f.Default

/-- What a flag declares of an option: its name, its environment variable and its
default. -/
def cli.Flag.option (f : cli.Flag) : GoString × GoString × cli.Value :=
  (f.Name, f.EnvVar, f.Default)

/-- What a path names on the file system when a secret is resolved. -/
inductive FileState
  | absent
  | readable (contents : GoString)
  | unreadable
deriving DecidableEq, Repr

/-- Why building a configuration record fails: a nil context is dereferenced, or the
secret file cannot be read (ConfigError). -/
inductive Failure
  | NilContext
  | ConfigError (file : GoString)
deriving DecidableEq, Repr

/-- The contents of a secret file without the white space around them. -/
def trimmed (s : GoString) : GoString :=
  ((s.dropWhile Char.isWhitespace).reverse.dropWhile Char.isWhitespace).reverse

/-- Modelled from the spec: the value-or-file indirection (§4.1, §8); `fileOrString` is
not under src/.  A value naming an existing readable file is replaced by the trimmed
contents of the file, a value naming no file is used verbatim, and a value naming a file
that cannot be read fails with a ConfigError. -/
def resolveSecret (fs : GoString → FileState) (value : GoString) : Except Failure GoString :=
  match fs value with
  | .absent => .ok value
  | .readable contents => .ok (trimmed contents)
  | .unreadable => .error (.ConfigError value)

/-- Modelled from the spec: `fileOrString(c, name)`, the value-or-file indirection
applied to the option `name` of the context; its definition is not under src/. -/
def fileOrString (fs : GoString → FileState) (c : cli.Context) (name : GoString) :
    Except Failure GoString :=
  resolveSecret fs (c.String name)

/-! ## The configuration records of package `services` and `stores` -/

namespace services

/-- The record `services.GogsConfig`, with the fields `newGogsConfig` sets. -/
structure GogsConfig where
  ConfigPath : GoString
  DataPath : GoString
  SaveDir : GoString
deriving DecidableEq, Repr

/-- The record `services.MySQLConfig`, with the fields `newMysqlConfig` sets. -/
structure MySQLConfig where
  Host : GoString
  Port : GoString
  User : GoString
  Password : GoString
  Database : GoString
  Options : GoString
  Compress : Bool
  SaveDir : GoString
  IgnoreExitCode : Bool
deriving DecidableEq, Repr

/-- The record `services.PostgresConfig`, with the fields `newPostgresConfig` sets. -/
structure PostgresConfig where
  Host : GoString
  Port : GoString
  User : GoString
  Password : GoString
  Database : GoString
  Options : GoString
  Compress : Bool
  Custom : Bool
  SaveDir : GoString
  IgnoreExitCode : Bool
deriving DecidableEq, Repr

/-- The record `services.TarballConfig`, with the fields `newTarballConfig` sets. -/
structure TarballConfig where
  Path : GoString
  Name : GoString
  Compress : Bool
  SaveDir : GoString
deriving DecidableEq, Repr

/-- The record `services.Gogs`, with the field `cmd.NewGogsConfig` sets. -/
structure Gogs where
  ConfigPath : GoString
deriving DecidableEq, Repr

/-- The record `services.MySQL`, with the fields `cmd.NewMysqlConfig` sets. -/
structure MySQL where
  Host : GoString
  Port : GoString
  User : GoString
  Password : GoString
  Database : GoString
  Options : List GoString
  Compress : Bool
deriving DecidableEq, Repr

/-- The record `services.Postgres`, with the fields `cmd.NewPostgresConfig` sets. -/
structure Postgres where
  Host : GoString
  Port : GoString
  User : GoString
  Password : GoString
  Database : GoString
  Options : List GoString
  Compress : Bool
  Custom : Bool
deriving DecidableEq, Repr

end services

namespace stores

/-- The record `stores.S3`, with the fields `cmd.NewS3Config` sets. -/
structure S3 where
  Endpoint : GoString
  Region : GoString
  Bucket : GoString
  AccessKey : GoString
  ClientSecret : GoString
  ForcePathStyle : Bool
deriving DecidableEq, Repr

end stores

/-! ## `cmd/config.go` -/

namespace cmd

/-- `NewGogsConfig` of `cmd/config.go`. -/
def NewGogsConfig (c : cli.Context) : services.Gogs :=
  { ConfigPath := c.String "gogs-config".toList }

/-- `NewMysqlConfig` of `cmd/config.go`. -/
def NewMysqlConfig (c : cli.Context) : services.MySQL :=
  { Host := c.String "host".toList
    Port := c.String "port".toList
    User := c.String "user".toList
    Password := c.String "password".toList
    Database := c.String "database".toList
    Options := c.StringSlice "mysql-options".toList
    Compress := c.Bool "backup-compress".toList }

/-- `NewPostgresConfig` of `cmd/config.go`. -/
def NewPostgresConfig (c : cli.Context) : services.Postgres :=
  { Host := c.String "host".toList
    Port := c.String "port".toList
    User := c.String "user".toList
    Password := c.String "password".toList
    Database := c.String "database".toList
    Options := c.StringSlice "mysql-options".toList
    Compress := c.Bool "backup-compress".toList
    Custom := c.Bool "postgres-custom".toList }

/-- `NewS3Config` of `cmd/config.go`. -/
def NewS3Config (c : cli.Context) : stores.S3 :=
  { Endpoint := c.GlobalString "endpoint".toList
    Region := c.GlobalString "region".toList
    Bucket := c.GlobalString "bucket".toList
    AccessKey := c.GlobalString "access-key".toList
    ClientSecret := c.GlobalString "client-secret".toList
    ForcePathStyle := c.GlobalBool "force-path-style".toList }

end cmd

/-! ## `cmd/go-s3-backup/services.go` -/

namespace main

/-- The package variable `gogsFlags`. -/
def gogsFlags : List cli.Flag :=
  [ .StringFlag "gogs-config".toList "gogs config path".toList [] "GOGS_CONFIG".toList,
    .StringFlag "gogs-data".toList "gogs data path".toList "/data".toList
      "GOGS_DATA".toList ]

/-- The package variable `databaseFlags`. -/
def databaseFlags : List cli.Flag :=
  [ .StringFlag "database-host".toList "database host".toList [] "DATABASE_HOST".toList,
    .StringFlag "database-port".toList "database port".toList [] "DATABASE_PORT".toList,
    .StringFlag "database-name".toList "database name".toList [] "DATABASE_NAME".toList,
    .StringFlag "database-user".toList "database user".toList [] "DATABASE_USER".toList,
    .StringFlag "database-password".toList "database password".toList []
      "DATABASE_PASSWORD".toList,
    .StringFlag "database-password-file".toList "database password file".toList []
      "DATABASE_PASSWORD_FILE".toList,
    .StringFlag "database-options".toList
      "extra options to pass to database service".toList [] "DATABASE_OPTIONS".toList,
    .BoolFlag "database-compress".toList "compress sql with gzip".toList
      "DATABASE_COMPRESS".toList,
    .BoolFlag "database-ignore-exit-code".toList "ignore restore process exit code".toList
      "DATABASE_IGNORE_EXIT_CODE".toList ]

/-- The package variable `postgresFlags`. -/
def postgresFlags : List cli.Flag :=
  [ .BoolFlag "postgres-custom".toList
      "use custom format (always compressed), ignored when database name is not set".toList
      "POSTGRES_CUSTOM_FORMAT".toList ]

/-- The package variable `tarballFlags`. -/
def tarballFlags : List cli.Flag :=
  [ .StringFlag "tarball-path".toList "path to backup/restore".toList []
      "TARBALL_PATH_SOURCE".toList,
    .StringFlag "tarball-name".toList "backup file prefix".toList []
      "TARBALL_NAME_PREFIX".toList,
    .BoolFlag "tarball-compress".toList "compress tarball with gzip".toList
      "TARBALL_COMPRESS".toList ]

/-- `newGogsConfig`: the record is read off the parent of the context. -/
def newGogsConfig (c : cli.Context) : Except Failure services.GogsConfig :=
  match c.Parent with
  | none => .error .NilContext
  | some c =>
    .ok { ConfigPath := c.String "gogs-config".toList
          DataPath := c.String "gogs-data".toList
          SaveDir := c.GlobalString "savedir".toList }

/-- `newMysqlConfig`: the record is read off the parent of the context; the password
goes through `fileOrString`. -/
def newMysqlConfig (fs : GoString → FileState) (c : cli.Context) :
    Except Failure services.MySQLConfig :=
  match c.Parent with
  | none => .error .NilContext
  | some c =>
    match fileOrString fs c "database-password".toList with
    | .error e => .error e
    | .ok password =>
      .ok { Host := c.String "database-host".toList
            Port := c.String "database-port".toList
            User := c.String "database-user".toList
            Password := password
            Database := c.String "database-name".toList
            Options := c.String "database-options".toList
            Compress := c.Bool "database-compress".toList
            SaveDir := c.GlobalString "savedir".toList
            IgnoreExitCode := c.Bool "database-ignore-exit-code".toList }

/-- `newPostgresConfig`: the record is read off the parent of the context; the password
goes through `fileOrString`. -/
def newPostgresConfig (fs : GoString → FileState) (c : cli.Context) :
    Except Failure services.PostgresConfig :=
  match c.Parent with
  | none => .error .NilContext
  | some c =>
    match fileOrString fs c "database-password".toList with
    | .error e => .error e
    | .ok password =>
      .ok { Host := c.String "database-host".toList
            Port := c.String "database-port".toList
            User := c.String "database-user".toList
            Password := password
            Database := c.String "database-name".toList
            Options := c.String "database-options".toList
            Compress := c.Bool "database-compress".toList
            Custom := c.Bool "postgres-custom".toList
            SaveDir := c.GlobalString "savedir".toList
            IgnoreExitCode := c.Bool "database-ignore-exit-code".toList }

/-- `newTarballConfig`: the record is read off the parent of the context. -/
def newTarballConfig (c : cli.Context) : Except Failure services.TarballConfig :=
  match c.Parent with
  | none => .error .NilContext
  | some c =>
    .ok { Path := c.String "tarball-path".toList
          Name := c.String "tarball-name".toList
          Compress := c.Bool "tarball-compress".toList
          SaveDir := c.GlobalString "savedir".toList }

/-- The two store command builders `s3Cmd(parent, service)` and
`filesystemCmd(parent, service)`; their definitions are not under src/, so the service
commands take them as given. -/
structure StoreCmds where
  s3Cmd : GoString → GoString → cli.Command
  filesystemCmd : GoString → GoString → cli.Command

/-- `gogsCmd(parent)`. -/
def gogsCmd (sc : StoreCmds) (parent : GoString) : cli.Command :=
  let name := "gogs".toList
  .mk name "connect to gogs service".toList gogsFlags (applyConfigValues gogsFlags)
    [sc.s3Cmd parent name, sc.filesystemCmd parent name]

/-- `postgresCmd(parent)`.  `append(databaseFlags, postgresFlags...)` leaves the slice
`databaseFlags` itself as it was: an append never changes the length of its argument. -/
def postgresCmd (sc : StoreCmds) (parent : GoString) : cli.Command :=
  let name := "postgres".toList
  let flags := databaseFlags ++ postgresFlags
  .mk name "connect to postgres service".toList flags (applyConfigValues flags)
    [sc.s3Cmd parent name, sc.filesystemCmd parent name]

/-- `mysqlCmd(parent)`. -/
def mysqlCmd (sc : StoreCmds) (parent : GoString) : cli.Command :=
  let name := "mysql".toList
  .mk name "connect to mysql service".toList databaseFlags (applyConfigValues databaseFlags)
    [sc.s3Cmd parent name, sc.filesystemCmd parent name]

/-- `tarballCmd(parent)`. -/
def tarballCmd (sc : StoreCmds) (parent : GoString) : cli.Command :=
  let name := "tarball".toList
  .mk name "connect to tarball service".toList tarballFlags (applyConfigValues tarballFlags)
    [sc.s3Cmd parent name, sc.filesystemCmd parent name]

end main

/-! ## Vocabulary of the statements -/

/-- The timestamp in the words of the spec, `yyyyMMddHHmmss`: four digits of year, then
two digits each of month, day, hour, minute and second. -/
def yyyyMMddHHmmss (t : Time) : GoString :=
  pad 4 t.year.toNat ++ (pad 2 t.month ++ (pad 2 t.day ++ (pad 2 t.hour ++
    (pad 2 t.minute ++ pad 2 t.second))))

/-- The archive format an archiver call works with. -/
def services.ArchiverCall.codec : services.ArchiverCall → services.Codec
  | .Make c _ _ => c
  | .Open c _ _ => c

/-! # Theorems -/

/-! ## The loop of `path.Clean` -/

namespace path

theorem dropWhile_length_le (c : Char) (rest : GoString) (hc : c ≠ '/') :
    ((c :: rest).dropWhile (· ≠ '/')).length ≤ rest.length := by
  rw [List.dropWhile_cons]
  simp only [ne_eq, hc, not_false_eq_true, decide_True, if_true]
  exact (List.dropWhile_sublist _).length_le

theorem cleanLoop_fuel (r : Bool) : ∀ (f1 f2 : Nat) (p : GoString) (st : CleanState),
    p.length ≤ f1 → p.length ≤ f2 → cleanLoop r f1 p st = cleanLoop r f2 p st := by
  intro f1
  induction f1 with
  | zero =>
    intro f2 p st h1 _
    have hp : p = [] := List.length_eq_zero.mp (Nat.le_zero.mp h1)
    subst hp
    cases f2 <;> rfl
  | succ n ih =>
    intro f2 p st h1 h2
    cases p with
    | nil => cases f2 <;> rfl
    | cons c rest =>
      cases f2 with
      | zero => simp at h2
      | succ m =>
        have hr1 : rest.length ≤ n := by simpa using h1
        have hr2 : rest.length ≤ m := by simpa using h2
        have ht : rest.tail.length ≤ rest.length := by simp
        have key : ∀ (q : GoString) (s : CleanState), q.length ≤ rest.length →
            cleanLoop r n q s = cleanLoop r m q s :=
          fun q s hq => ih _ _ _ (by omega) (by omega)
        simp only [cleanLoop]
        by_cases h1 : c = '/'
        · simp only [if_pos h1]; exact key _ _ (le_refl _)
        · by_cases h2 : c = '.' ∧ (rest = [] ∨ rest.head? = some '/')
          · simp only [if_neg h1, if_pos h2]; exact key _ _ (le_refl _)
          · by_cases h3 : c = '.' ∧ rest.head? = some '.' ∧
                (rest.tail = [] ∨ rest.tail.head? = some '/')
            · simp only [if_neg h1, if_neg h2, if_pos h3]
              split_ifs <;> exact key _ _ ht
            · simp only [if_neg h1, if_neg h2, if_neg h3]
              exact key _ _ (dropWhile_length_le c rest h1)

theorem run_nil (r : Bool) (st : CleanState) : run r [] st = st := rfl

theorem run_cons (r : Bool) (c : Char) (rest : GoString) (st : CleanState) :
    run r (c :: rest) st =
      if c = '/' then run r rest st
      else if c = '.' ∧ (rest = [] ∨ rest.head? = some '/') then run r rest st
      else if c = '.' ∧ rest.head? = some '.' ∧ (rest.tail = [] ∨ rest.tail.head? = some '/')
      then run r rest.tail (dotdotStep r st)
      else run r ((c :: rest).dropWhile (· ≠ '/'))
        (elemStep r st ((c :: rest).takeWhile (· ≠ '/'))) := by
  have ht : rest.tail.length ≤ rest.length := by simp
  have key : ∀ (q : GoString) (s : CleanState), q.length ≤ rest.length →
      cleanLoop r rest.length q s = cleanLoop r q.length q s :=
    fun q s hq => cleanLoop_fuel _ _ _ _ _ hq (le_refl _)
  unfold run
  simp only [List.length_cons, cleanLoop]
  by_cases h1 : c = '/'
  · simp only [if_pos h1]
  · by_cases h2 : c = '.' ∧ (rest = [] ∨ rest.head? = some '/')
    · simp only [if_neg h1, if_pos h2]
    · by_cases h3 : c = '.' ∧ rest.head? = some '.' ∧
          (rest.tail = [] ∨ rest.tail.head? = some '/')
      · simp only [if_neg h1, if_neg h2, if_pos h3, dotdotStep]
        split_ifs <;> exact key _ _ ht
      · simp only [if_neg h1, if_neg h2, if_neg h3, elemStep, withSlash]
        exact key _ _ (dropWhile_length_le c rest h1)

theorem atEnd_append (l B : GoString) : atEnd (l ++ '/' :: B) ↔ atEnd l := by
  cases l with
  | nil => simp [atEnd]
  | cons a l => simp [atEnd]

theorem takeWhile_append_slash (l B : GoString) :
    (l ++ '/' :: B).takeWhile (· ≠ '/') = l.takeWhile (· ≠ '/') := by
  induction l with
  | nil => simp
  | cons a l ih =>
    by_cases ha : a = '/'
    · simp [ha]
    · simp only [List.cons_append, List.takeWhile_cons, ne_eq, ha, not_false_eq_true,
        decide_True, if_true, ih]

theorem dropWhile_append_slash (l B : GoString) :
    (l ++ '/' :: B).dropWhile (· ≠ '/') = l.dropWhile (· ≠ '/') ++ '/' :: B := by
  induction l with
  | nil => simp
  | cons a l ih =>
    by_cases ha : a = '/'
    · simp [ha]
    · simp only [List.cons_append, List.dropWhile_cons, ne_eq, ha, not_false_eq_true,
        decide_True, if_true, ih]

theorem run_cons' (r : Bool) (c : Char) (rest : GoString) (st : CleanState) :
    run r (c :: rest) st =
      if c = '/' then run r rest st
      else if c = '.' ∧ atEnd rest then run r rest st
      else if c = '.' ∧ rest.head? = some '.' ∧ atEnd rest.tail
      then run r rest.tail (dotdotStep r st)
      else run r ((c :: rest).dropWhile (· ≠ '/'))
        (elemStep r st ((c :: rest).takeWhile (· ≠ '/'))) :=
  run_cons r c rest st

theorem run_append_slash (r : Bool) : ∀ (n : Nat) (A : GoString), A.length ≤ n →
    ∀ (B : GoString) (st : CleanState), run r (A ++ '/' :: B) st = run r B (run r A st) := by
  intro n
  induction n with
  | zero =>
    intro A hA B st
    have : A = [] := List.length_eq_zero.mp (Nat.le_zero.mp hA)
    subst this
    rw [List.nil_append, run_cons', if_pos rfl, run_nil]
  | succ n ih =>
    intro A hA B st
    cases A with
    | nil => rw [List.nil_append, run_cons', if_pos rfl, run_nil]
    | cons c rest =>
      have hr : rest.length ≤ n := by simpa using hA
      rw [List.cons_append, run_cons', run_cons' r c rest]
      by_cases h1 : c = '/'
      · rw [if_pos h1, if_pos h1]; exact ih rest hr B st
      · rw [if_neg h1, if_neg h1]
        by_cases h2 : c = '.' ∧ atEnd rest
        · rw [if_pos h2, if_pos ⟨h2.1, (atEnd_append rest B).mpr h2.2⟩]
          exact ih rest hr B st
        · rw [if_neg h2, if_neg (fun h => h2 ⟨h.1, (atEnd_append rest B).mp h.2⟩)]
          cases rest with
          | nil =>
            have h3 : ¬(c = '.' ∧ ([] : GoString).head? = some '.' ∧
                atEnd ([] : GoString).tail) := by simp
            have h3' : ¬(c = '.' ∧ ([] ++ '/' :: B : GoString).head? = some '.' ∧
                atEnd ([] ++ '/' :: B : GoString).tail) := by simp
            rw [if_neg h3, if_neg h3']
            have hd := dropWhile_append_slash [c] B
            have ht := takeWhile_append_slash [c] B
            simp only [List.cons_append, List.nil_append] at hd ht ⊢
            rw [hd, ht]
            exact ih _ (by
              have := dropWhile_length_le c [] h1
              omega) B _
          | cons d rest2 =>
            have hr2 : rest2.length ≤ n := by simp at hr; omega
            simp only [List.cons_append, List.head?_cons, List.tail_cons]
            by_cases h3 : c = '.' ∧ some d = some '.' ∧ atEnd rest2
            · rw [if_pos h3, if_pos ⟨h3.1, h3.2.1, (atEnd_append rest2 B).mpr h3.2.2⟩]
              exact ih rest2 hr2 B _
            · rw [if_neg h3,
                if_neg (fun h => h3 ⟨h.1, h.2.1, (atEnd_append rest2 B).mp h.2.2⟩)]
              have hd := dropWhile_append_slash (c :: d :: rest2) B
              have ht := takeWhile_append_slash (c :: d :: rest2) B
              simp only [List.cons_append] at hd ht
              rw [hd, ht]
              exact ih _ (by
                have := dropWhile_length_le c (d :: rest2) h1
                simp at this hr ⊢
                omega) B _

theorem run_append_slash' (r : Bool) (A B : GoString) (st : CleanState) :
    run r (A ++ '/' :: B) st = run r B (run r A st) :=
  run_append_slash r A.length A (le_refl _) B st

theorem takeWhile_of_no_slash (e : GoString) (h : '/' ∉ e) :
    e.takeWhile (· ≠ '/') = e := by
  rw [List.takeWhile_eq_self_iff]
  intro x hx
  simp only [ne_eq, decide_eq_true_eq]
  rintro rfl
  exact h hx

theorem dropWhile_of_no_slash (e : GoString) (h : '/' ∉ e) :
    e.dropWhile (· ≠ '/') = [] := by
  rw [List.dropWhile_eq_nil_iff]
  intro x hx
  simp only [ne_eq, decide_eq_true_eq]
  rintro rfl
  exact h hx

theorem run_real (r : Bool) (e : GoString) (st : CleanState) (he : RealElem e) :
    run r e st = elemStep r st e := by
  obtain ⟨hne, hns, hd, hdd⟩ := he
  cases e with
  | nil => exact absurd rfl hne
  | cons c rest =>
    have hc : c ≠ '/' := fun h => hns (h ▸ List.mem_cons_self _ _)
    have hrest : '/' ∉ rest := fun h => hns (List.mem_cons_of_mem _ h)
    have h2 : ¬(c = '.' ∧ atEnd rest) := by
      rintro ⟨rfl, h | h⟩
      · exact hd (by rw [h])
      · cases rest with
        | nil => simp at h
        | cons d rest2 =>
          simp at h
          exact hrest (h ▸ List.mem_cons_self _ _)
    have h3 : ¬(c = '.' ∧ rest.head? = some '.' ∧ atEnd rest.tail) := by
      rintro ⟨rfl, hh, h⟩
      cases rest with
      | nil => simp at hh
      | cons d rest2 =>
        simp at hh
        subst hh
        rcases h with h | h
        · simp at h
          exact hdd (by rw [h])
        · cases rest2 with
          | nil => simp at h
          | cons x rest3 =>
            simp at h
            exact hrest (h ▸ List.mem_cons_of_mem _ (List.mem_cons_self _ _))
    rw [run_cons', if_neg hc, if_neg h2, if_neg h3, takeWhile_of_no_slash _ hns,
      dropWhile_of_no_slash _ hns, run_nil]

theorem cleanRun_eq (p : GoString) :
    cleanRun p = run (isRooted p) (if isRooted p then p.tail else p) (cleanInit p) := by
  unfold cleanRun run
  apply cleanLoop_fuel
  · split_ifs <;> simp
  · exact le_refl _

theorem cleanRun_append_real (A e : GoString) (he : RealElem e) :
    cleanRun (A ++ '/' :: e) =
      elemStep (isRooted (A ++ ['/'])) (cleanRun (A ++ ['/'])) e := by
  rw [cleanRun_eq, cleanRun_eq]
  cases A with
  | nil =>
    simp only [List.nil_append, isRooted, List.head?_cons, decide_True, if_true, List.tail_cons,
      cleanInit, run_nil]
    exact run_real _ _ _ he
  | cons a A =>
    have hroot : isRooted (a :: A ++ '/' :: e) = isRooted (a :: A ++ ['/']) := by
      simp [isRooted]
    have hinit : cleanInit (a :: A ++ '/' :: e) = cleanInit (a :: A ++ ['/']) := by
      simp [cleanInit, isRooted]
    rw [hroot, hinit]
    cases hr : isRooted (a :: A ++ ['/'])
    · simp only [Bool.false_eq_true, if_false]
      rw [run_append_slash', run_append_slash', run_nil]
      exact run_real _ _ _ he
    · simp only [if_true, List.cons_append, List.tail_cons]
      rw [run_append_slash', run_append_slash', run_nil]
      exact run_real _ _ _ he

theorem Clean_append_real (A e : GoString) (he : RealElem e) :
    Clean (A ++ '/' :: e) = dirPrefix (A ++ ['/']) ++ e := by
  have hne : A ++ '/' :: e ≠ [] := by simp
  unfold Clean
  rw [if_neg hne]
  simp only [cleanRun_append_real A e he, elemStep, dirPrefix]
  rw [if_neg]
  simp only [List.length_append, ne_eq]
  have : 0 < e.length := List.length_pos.mpr he.1
  omega

end path

/-! ## The timestamp -/

theorem ofNat_toNat_cases (n : Nat) : (Char.ofNat n).toNat = n ∨ (Char.ofNat n).toNat = 0 := by
  unfold Char.ofNat
  by_cases h : n.isValidChar
  · left
    simp only [h, dite_true]
    rfl
  · right
    simp only [h, dite_false]
    rfl

theorem digitByte_ne_slash (u : Nat) : digitByte u ≠ '/' := by
  intro h
  have := congrArg Char.toNat h
  rcases ofNat_toNat_cases (48 + u) with h1 | h1
  · unfold digitByte at this; rw [h1] at this
    have h47 : ('/' : Char).toNat = 47 := rfl
    omega
  · unfold digitByte at this; rw [h1] at this
    exact absurd this (by decide)

theorem digitByte_lt (a b : Nat) (hb : b < 10) (h : a < b) : digitByte a < digitByte b := by
  interval_cases b <;> interval_cases a <;> decide

theorem appendIntDigits_no_slash : ∀ (free u : Nat) (acc : GoString), '/' ∉ acc →
    '/' ∉ appendIntDigits free u acc := by
  intro free
  induction free with
  | zero =>
    intro u acc h
    simp only [appendIntDigits, List.mem_cons, not_or]
    exact ⟨fun e => digitByte_ne_slash u e.symm, h⟩
  | succ n ih =>
    intro u acc h
    simp only [appendIntDigits]
    split_ifs
    · apply ih
      simp only [List.mem_cons, not_or]
      exact ⟨fun e => digitByte_ne_slash _ e.symm, h⟩
    · simp only [List.mem_cons, not_or]
      exact ⟨fun e => digitByte_ne_slash u e.symm, h⟩

theorem appendInt_no_slash (b : GoString) (x : Int) (w : Nat) (hb : '/' ∉ b) :
    '/' ∉ appendInt b x w := by
  unfold appendInt
  simp only [List.mem_append, not_or]
  refine ⟨⟨?_, ?_⟩, appendIntDigits_no_slash _ _ _ (by simp)⟩
  · split_ifs
    · simp only [List.mem_append, not_or]; exact ⟨hb, by decide⟩
    · exact hb
  · intro h
    exact absurd (List.eq_of_mem_replicate h) (by decide)

theorem Format_no_slash (t : Time) : '/' ∉ t.Format20060102150405 := by
  unfold Time.Format20060102150405
  exact appendInt_no_slash _ _ _ (appendInt_no_slash _ _ _ (appendInt_no_slash _ _ _
    (appendInt_no_slash _ _ _ (appendInt_no_slash _ _ _ (appendInt_no_slash _ _ _ (by simp))))))

theorem pad_length : ∀ (k x : Nat), (pad k x).length = k
  | 0, _ => rfl
  | k + 1, x => by simp [pad, pad_length k]

theorem appendInt_pad2 (b : GoString) (n : Nat) (h : n < 100) :
    appendInt b (n : Int) 2 = b ++ pad 2 n := by
  have h0 : ¬((n : Int) < 0) := by omega
  have hd0 : digitByte 0 = '0' := rfl
  unfold appendInt
  simp only [h0, if_false, Int.natAbs_ofNat, List.append_assoc, List.append_cancel_left_eq]
  by_cases h1 : n ≥ 10
  · have e1 : n - n / 10 * 10 = n % 10 := by omega
    have e2 : ¬(n / 10 ≥ 10) := by omega
    have e3 : n / 10 % 10 = n / 10 := by omega
    simp [appendIntDigits, pad, h1, e1, e2, e3]
  · have e3 : n / 10 % 10 = 0 := by omega
    have e4 : n % 10 = n := by omega
    simp [appendIntDigits, pad, h1, e3, e4, hd0]

theorem appendInt_pad4 (b : GoString) (y : Int) (h0 : 0 ≤ y) (h1 : y ≤ 9999) :
    appendInt b y 4 = b ++ pad 4 y.toNat := by
  obtain ⟨n, rfl⟩ := Int.eq_ofNat_of_zero_le h0
  have hn : n < 10000 := by omega
  have hneg : ¬((n : Int) < 0) := by omega
  have hd0 : digitByte 0 = '0' := rfl
  unfold appendInt
  simp only [hneg, if_false, Int.natAbs_ofNat, Int.toNat_ofNat, List.append_assoc,
    List.append_cancel_left_eq]
  by_cases c1 : n ≥ 10
  · have e1 : n - n / 10 * 10 = n % 10 := by omega
    by_cases c2 : n / 10 ≥ 10
    · have e2 : n / 10 - n / 10 / 10 * 10 = n / 10 % 10 := by omega
      by_cases c3 : n / 10 / 10 ≥ 10
      · have e3 : n / 10 / 10 - n / 10 / 10 / 10 * 10 = n / 10 / 10 % 10 := by omega
        have c4 : ¬(n / 10 / 10 / 10 ≥ 10) := by omega
        have e4 : n / 10 / 10 / 10 % 10 = n / 10 / 10 / 10 := by omega
        simp [appendIntDigits, pad, c1, c2, c3, c4, e1, e2, e3, e4]
      · have e4 : n / 10 / 10 / 10 % 10 = 0 := by omega
        have e5 : n / 10 / 10 % 10 = n / 10 / 10 := by omega
        simp [appendIntDigits, pad, c1, c2, c3, e1, e2, e4, e5, hd0]
    · have e4 : n / 10 / 10 / 10 % 10 = 0 := by omega
      have e5 : n / 10 / 10 % 10 = 0 := by omega
      have e6 : n / 10 % 10 = n / 10 := by omega
      simp [appendIntDigits, pad, c1, c2, e1, e4, e5, e6, hd0, List.replicate]
  · have e4 : n / 10 / 10 / 10 % 10 = 0 := by omega
    have e5 : n / 10 / 10 % 10 = 0 := by omega
    have e6 : n / 10 % 10 = 0 := by omega
    have e7 : n % 10 = n := by omega
    simp [appendIntDigits, pad, c1, e4, e5, e6, e7, hd0, List.replicate]

theorem Format_eq_pad (t : Time) (hv : t.Valid) (h0 : 0 ≤ t.year) (h1 : t.year ≤ 9999) :
    t.Format20060102150405 =
      pad 4 t.year.toNat ++ (pad 2 t.month ++ (pad 2 t.day ++ (pad 2 t.hour ++
        (pad 2 t.minute ++ pad 2 t.second)))) := by
  obtain ⟨_, hm, _, hd, hh, hmi, hs⟩ := hv
  unfold Time.Format20060102150405
  simp only []
  rw [appendInt_pad2 _ _ (by omega), appendInt_pad2 _ _ (by omega),
    appendInt_pad2 _ _ (by omega), appendInt_pad2 _ _ (by omega),
    appendInt_pad2 _ _ (by omega), appendInt_pad4 _ _ h0 h1]
  simp

theorem lex_append_same_length {l₁ l₂ : GoString} (hl : List.Lex (· < ·) l₁ l₂)
    (h : l₁.length = l₂.length) (x y : GoString) : List.Lex (· < ·) (l₁ ++ x) (l₂ ++ y) := by
  induction hl with
  | nil => simp at h
  | cons _ ih => exact List.Lex.cons (ih (by simpa using h))
  | rel hr => exact List.Lex.rel hr

theorem pad_lt : ∀ (k a b : Nat), a < b → b < 10 ^ k →
    List.Lex (· < ·) (pad k a) (pad k b)
  | 0, a, b, hab, hb => by simp at hb; omega
  | k + 1, a, b, hab, hb => by
    have hb' : b / 10 < 10 ^ k := by
      rw [pow_succ] at hb
      exact Nat.div_lt_of_lt_mul (by rwa [Nat.mul_comm] at hb)
    simp only [pad]
    rcases Nat.lt_or_ge (a / 10) (b / 10) with h | h
    · have ih := pad_lt k (a / 10) (b / 10) h hb'
      exact lex_append_same_length ih (by rw [pad_length, pad_length]) _ _
    · have he : a / 10 = b / 10 := by omega
      rw [he]
      apply List.Lex.append_left
      exact List.Lex.rel (digitByte_lt _ _ (Nat.mod_lt _ (by decide)) (by omega))

theorem lex_ne {l₁ l₂ : GoString} (hl : List.Lex (· < ·) l₁ l₂) : l₁ ≠ l₂ := by
  induction hl with
  | nil => simp
  | cons _ ih => intro h; exact ih (List.cons_injective h)
  | rel hr => intro h; rw [(List.cons.inj h).1] at hr; exact lt_irrefl _ hr

theorem stamp_lt (a b : Time) (ha : a.Valid) (hb : b.Valid) (hay : 0 ≤ a.year)
    (hby : b.year ≤ 9999) (hab : a.before b) :
    List.Lex (· < ·) (yyyyMMddHHmmss a) (yyyyMMddHHmmss b) := by
  obtain ⟨_, _, _, _, _, _, _⟩ := ha
  obtain ⟨_, _, _, _, _, _, _⟩ := hb
  unfold yyyyMMddHHmmss
  have l4 : ∀ x y : Nat, (pad 4 x).length = (pad 4 y).length := by simp [pad_length]
  have l2 : ∀ x y : Nat, (pad 2 x).length = (pad 2 y).length := by simp [pad_length]
  rcases hab with h | ⟨h, hab⟩
  · exact lex_append_same_length (pad_lt 4 _ _ (by omega) (by omega)) (l4 _ _) _ _
  rw [h]; apply List.Lex.append_left
  rcases hab with h | ⟨h, hab⟩
  · exact lex_append_same_length (pad_lt 2 _ _ h (by omega)) (l2 _ _) _ _
  rw [h]; apply List.Lex.append_left
  rcases hab with h | ⟨h, hab⟩
  · exact lex_append_same_length (pad_lt 2 _ _ h (by omega)) (l2 _ _) _ _
  rw [h]; apply List.Lex.append_left
  rcases hab with h | ⟨h, hab⟩
  · exact lex_append_same_length (pad_lt 2 _ _ h (by omega)) (l2 _ _) _ _
  rw [h]; apply List.Lex.append_left
  rcases hab with h | ⟨h, hab⟩
  · exact lex_append_same_length (pad_lt 2 _ _ h (by omega)) (l2 _ _) _ _
  rw [h]; apply List.Lex.append_left
  exact pad_lt 2 _ _ hab (by omega)

theorem stamp_length (t : Time) : (yyyyMMddHHmmss t).length = 14 := by
  simp [yyyyMMddHHmmss, pad_length]

/-! ## `strings.HasSuffix` -/

namespace strings

theorem HasSuffix_append (x suffix : GoString) : HasSuffix (x ++ suffix) suffix = true := by
  simp [HasSuffix]

theorem HasSuffix_tar_gz (x : GoString) :
    HasSuffix (x ++ ".tar".toList) ".gz".toList = false := by
  have h : (x ++ ".tar".toList).length - (".gz".toList).length = x.length + 1 := by
    simp [String.toList]
  unfold HasSuffix
  rw [h, List.drop_append]
  simp [String.toList]

end strings

/-! ## `path.Base` and `path.Split` -/

namespace path

theorem getElem?_append_last (q : GoString) (n : Nat) (hn : q.length = n + 1) (B : GoString) :
    (q ++ B)[n]? = q.getLast? := by
  rw [List.getElem?_append_left (by omega), List.getLast?_eq_getElem?, hn]
  rfl

theorem stripTrailingLen_append (q : GoString) (hq : q.getLast? ≠ some '/') (K : Nat) :
    ∀ k, k ≤ K → stripTrailingLen (q ++ List.replicate K '/') (q.length + k) = q.length := by
  intro k
  induction k with
  | zero =>
    intro _
    cases hn : q.length with
    | zero => rfl
    | succ n =>
      simp only [Nat.add_zero, stripTrailingLen]
      rw [getElem?_append_last q n hn, if_neg hq]
  | succ k ih =>
    intro hk
    have h : (q ++ List.replicate K '/')[q.length + k]? = some '/' := by
      rw [List.getElem?_append_right (by omega)]
      simp only [Nat.add_sub_cancel_left]
      rw [List.getElem?_replicate]
      simp only [ite_eq_left_iff, not_lt, reduceCtorEq, imp_false, not_le]
      omega
    rw [← Nat.add_assoc]
    simp only [stripTrailingLen]
    rw [if_pos h]
    exact ih (by omega)

theorem lastSlashFrom_append (d s : GoString) (hd : d = [] ∨ d.getLast? = some '/')
    (hs : '/' ∉ s) : ∀ j, j ≤ s.length → lastSlashFrom (d ++ s) (d.length + j) = d.length := by
  intro j
  induction j with
  | zero =>
    intro _
    cases hn : d.length with
    | zero => rfl
    | succ n =>
      have hd' : d.getLast? = some '/' := by
        rcases hd with h | h
        · rw [h] at hn; simp at hn
        · exact h
      simp only [Nat.add_zero, lastSlashFrom]
      rw [getElem?_append_last d n hn, hd']
      simp
  | succ j ih =>
    intro hj
    have h : (d ++ s)[d.length + j]? ≠ some '/' := by
      rw [List.getElem?_append_right (by omega)]
      simp only [Nat.add_sub_cancel_left]
      intro h
      exact hs (List.getElem?_mem h)
    rw [← Nat.add_assoc]
    simp only [lastSlashFrom]
    rw [if_pos h]
    exact ih (by omega)

theorem lastSlashSucc_append (d s : GoString) (hd : d = [] ∨ d.getLast? = some '/')
    (hs : '/' ∉ s) : lastSlashSucc (d ++ s) = d.length := by
  unfold lastSlashSucc
  rw [List.length_append]
  exact lastSlashFrom_append d s hd hs s.length (le_refl _)

theorem getLast?_append_ne_slash (d s : GoString) (hne : s ≠ []) (hs : '/' ∉ s) :
    (d ++ s).getLast? ≠ some '/' := by
  rw [List.getLast?_append_of_ne_nil _ hne]
  intro h
  exact hs (List.mem_of_mem_getLast? h)

theorem Base_last_segment (d s : GoString) (k : Nat) (hd : d = [] ∨ d.getLast? = some '/')
    (hne : s ≠ []) (hs : '/' ∉ s) : Base (d ++ s ++ List.replicate k '/') = s := by
  have hp : d ++ s ++ List.replicate k '/' ≠ [] := by simp [hne]
  have hlen : (d ++ s ++ List.replicate k '/').length = (d ++ s).length + k := by
    simp only [List.length_append, List.length_replicate]
  unfold Base
  rw [if_neg hp]
  simp only []
  rw [hlen, stripTrailingLen_append (d ++ s) (getLast?_append_ne_slash d s hne hs) k k
    (le_refl _), List.take_left, lastSlashSucc_append d s hd hs, List.drop_left, if_neg hne]

theorem Split_append (d s : GoString) (hd : d = [] ∨ d.getLast? = some '/')
    (hs : '/' ∉ s) : Split (d ++ s) = (d, s) := by
  unfold Split
  rw [lastSlashSucc_append d s hd hs, List.take_left, List.drop_left]

theorem exists_last_slash (p : GoString) (h : '/' ∈ p) :
    ∃ A u, p = A ++ '/' :: u ∧ '/' ∉ u := by
  have hr : '/' ∈ p.reverse := List.mem_reverse.mpr h
  obtain ⟨as, bs, hp, hnot⟩ := List.eq_append_cons_of_mem hr
  refine ⟨bs.reverse, as.reverse, ?_, by simpa using hnot⟩
  have := congrArg List.reverse hp
  simpa using this

end path

namespace path

theorem cleanRun_append_slash (A : GoString) (hA : A ≠ []) :
    isRooted (A ++ ['/']) = isRooted A ∧ cleanRun (A ++ ['/']) = cleanRun A := by
  cases A with
  | nil => exact absurd rfl hA
  | cons a A =>
    have hroot : isRooted (a :: A ++ ['/']) = isRooted (a :: A) := by simp [isRooted]
    have hinit : cleanInit (a :: A ++ ['/']) = cleanInit (a :: A) := by
      simp [cleanInit, isRooted]
    refine ⟨hroot, ?_⟩
    rw [cleanRun_eq, cleanRun_eq, hroot, hinit]
    cases isRooted (a :: A)
    · simp only [Bool.false_eq_true, if_false]
      rw [run_append_slash', run_nil]
    · simp only [if_true, List.cons_append, List.tail_cons]
      rw [run_append_slash', run_nil]

theorem dirPrefix_of_clean (D : GoString) (habs : D.head? = some '/')
    (hclean : Clean D = D) (hlast : D.getLast? ≠ some '/') :
    dirPrefix (D ++ ['/']) = D ++ ['/'] := by
  have hne : D ≠ [] := by rintro rfl; simp at habs
  have hroot : isRooted D = true := by simp [isRooted, habs]
  obtain ⟨h1, h2⟩ := cleanRun_append_slash D hne
  have hout : (cleanRun D).out = D := by
    unfold Clean at hclean
    rw [if_neg hne] at hclean
    simp only [] at hclean
    split_ifs at hclean with h0
    · rw [← hclean] at habs; simp at habs
    · exact hclean
  have hlen : D.length ≠ 1 := by
    intro h
    cases D with
    | nil => simp at h
    | cons a D =>
      have : D = [] := by simpa using h
      subst this
      simp at habs hlast
      exact hlast habs
  unfold dirPrefix withSlash
  rw [h1, h2, hroot, hout, if_pos (Or.inl ⟨rfl, hlen⟩)]

end path

/-! ## The states of `path.Clean` and its idempotence -/

namespace path

theorem Canon.dotdot_le {r : Bool} {st : CleanState} (h : Canon r st) :
    st.dotdot ≤ st.out.length := by
  induction h with
  | init st h => subst h; cases r <;> simp [initState]
  | elem st st' e _ _ h ih =>
    subst h
    simp only [elemStep, withSlash]
    split_ifs <;> simp only [List.length_append, List.length_singleton] <;> omega
  | dots st st' _ _ _ h _ => subst h; simp

theorem Canon.rooted {st : CleanState} (h : Canon true st) :
    st.dotdot = 1 ∧ st.out.head? = some '/' := by
  induction h with
  | init st h => subst h; simp [initState]
  | elem st st' e _ _ h ih =>
    subst h
    obtain ⟨h1, h2⟩ := ih
    refine ⟨h1, ?_⟩
    cases ho : st'.out with
    | nil => rw [ho] at h2; simp at h2
    | cons a o =>
      rw [ho] at h2
      simp [elemStep, withSlash, ho]
      split_ifs <;> simpa using h2
  | dots st st' hr _ _ _ _ => exact absurd hr (by decide)

theorem Canon.unrooted {st : CleanState} (h : Canon false st) :
    st.out.head? ≠ some '/' := by
  induction h with
  | init st h => subst h; simp [initState]
  | elem st st' e _ he h ih =>
    subst h
    obtain ⟨hne, hns, _, _⟩ := he
    cases ho : st'.out with
    | nil =>
      cases e with
      | nil => exact absurd rfl hne
      | cons c e =>
        simp [elemStep, withSlash, ho]
        intro hc
        exact hns (hc ▸ List.mem_cons_self _ _)
    | cons a o =>
      rw [ho] at ih
      simp [elemStep, withSlash, ho]
      simpa using ih
  | dots st st' _ _ _ h ih =>
    subst h
    cases ho : st'.out with
    | nil => simp
    | cons a o => rw [ho] at ih; simpa using ih

theorem takeWhile_eq_nil_iff_atEnd (l : GoString) :
    l.takeWhile (· ≠ '/') = [] ↔ atEnd l := by
  cases l with
  | nil => simp [atEnd]
  | cons a l =>
    by_cases ha : a = '/'
    · simp [atEnd, ha]
    · simp [atEnd, ha, List.takeWhile_cons]

theorem takeWhile_real (c : Char) (rest : GoString) (h1 : c ≠ '/')
    (h2 : ¬(c = '.' ∧ atEnd rest))
    (h3 : ¬(c = '.' ∧ rest.head? = some '.' ∧ atEnd rest.tail)) :
    RealElem ((c :: rest).takeWhile (· ≠ '/')) := by
  have hcons : (c :: rest).takeWhile (· ≠ '/') = c :: rest.takeWhile (· ≠ '/') := by
    simp [List.takeWhile_cons, h1]
  refine ⟨by rw [hcons]; simp, ?_, ?_, ?_⟩
  · intro h
    have := List.mem_takeWhile_imp h
    simp at this
  · rw [hcons]
    intro h
    obtain ⟨hc, ht⟩ := List.cons.inj h
    exact h2 ⟨hc, (takeWhile_eq_nil_iff_atEnd rest).mp ht⟩
  · rw [hcons]
    intro h
    obtain ⟨hc, ht⟩ := List.cons.inj h
    cases rest with
    | nil => simp at ht
    | cons d rest2 =>
      by_cases hd : d = '/'
      · simp [List.takeWhile_cons, hd] at ht
      · have hcons2 : (d :: rest2).takeWhile (· ≠ '/') = d :: rest2.takeWhile (· ≠ '/') := by
          simp [List.takeWhile_cons, hd]
        rw [hcons2] at ht
        obtain ⟨hd2, ht2⟩ := List.cons.inj ht
        exact h3 ⟨hc, by simp [hd2], (takeWhile_eq_nil_iff_atEnd rest2).mp ht2⟩

theorem backtrackW_elem (base e : GoString) (dd : Nat) (hdd : dd ≤ base.length)
    (hs : '/' ∉ e) : ∀ j, j < e.length →
    backtrackW (base ++ e) dd (base.length + j) = backtrackW (base ++ e) dd base.length := by
  intro j
  induction j with
  | zero => intro _; rfl
  | succ j ih =>
    intro hj
    have h : (base ++ e)[base.length + j + 1]? ≠ some '/' := by
      rw [Nat.add_assoc, List.getElem?_append_right (by omega)]
      simp only [Nat.add_sub_cancel_left]
      intro h
      exact hs (List.getElem?_mem h)
    rw [← Nat.add_assoc]
    simp only [backtrackW]
    rw [if_pos ⟨by omega, h⟩]
    exact ih (by omega)

theorem backtrackW_stop (out : GoString) (dd : Nat) : backtrackW out dd dd = dd := by
  cases dd with
  | zero => rfl
  | succ n => simp [backtrackW]

theorem backtrackW_slash (o e : GoString) (dd : Nat) :
    backtrackW (o ++ ['/'] ++ e) dd o.length = o.length := by
  cases hn : o.length with
  | zero => rfl
  | succ n =>
    have h : (o ++ ['/'] ++ e)[n + 1]? = some '/' := by
      rw [List.append_assoc, List.getElem?_append_right (by omega)]
      simp [hn]
    simp only [backtrackW]
    rw [if_neg (fun hh => hh.2 h)]

theorem backtrack_elemStep (r : Bool) (st : CleanState) (e : GoString) (hc : Canon r st)
    (he : RealElem e) : backtrack (elemStep r st e).out st.dotdot = st.out := by
  obtain ⟨hne, hns, _, _⟩ := he
  have hlen : 0 < e.length := List.length_pos.mpr hne
  have hle := hc.dotdot_le
  unfold backtrack
  simp only [elemStep, withSlash]
  split_ifs with hcond
  · -- a slash was added
    have h1 : (st.out ++ ['/'] ++ e).length - 1 = (st.out ++ ['/']).length + (e.length - 1) := by
      simp only [List.length_append, List.length_singleton]; omega
    rw [h1, backtrackW_elem (st.out ++ ['/']) e st.dotdot
      (by simp only [List.length_append, List.length_singleton]; omega) hns _ (by omega)]
    have h2 : (st.out ++ ['/']).length = st.out.length + 1 := by simp
    have h3 : (st.out ++ ['/'] ++ e)[st.out.length + 1]? ≠ some '/' := by
      rw [List.getElem?_append_right (by simp)]
      simp only [List.length_append, List.length_singleton, Nat.sub_self]
      intro h
      exact hns (List.getElem?_mem h)
    rw [h2]
    simp only [backtrackW]
    rw [if_pos ⟨by omega, h3⟩, backtrackW_slash, List.append_assoc, List.take_left]
  · -- no slash was added: the buffer was at `dotdot`
    have hdd : st.out.length = st.dotdot := by
      by_contra hne
      apply hcond
      cases r with
      | true => left; exact ⟨rfl, by have := hc.rooted.1; omega⟩
      | false => right; exact ⟨rfl, by omega⟩
    have h1 : (st.out ++ e).length - 1 = st.out.length + (e.length - 1) := by
      simp only [List.length_append]; omega
    rw [h1, backtrackW_elem st.out e st.dotdot (by omega) hns _ (by omega), hdd,
      backtrackW_stop, ← hdd, List.take_left]

theorem Canon.inv_of_gt {r : Bool} {st : CleanState} (h : Canon r st)
    (hgt : st.out.length > st.dotdot) :
    ∃ st' e, Canon r st' ∧ RealElem e ∧ st = elemStep r st' e := by
  cases h with
  | init _ h => subst h; cases r <;> simp [initState] at hgt
  | elem _ st' e hc he h => exact ⟨st', e, hc, he, h⟩
  | dots _ st' hr hc hl h => subst h; simp at hgt

theorem Canon.dotdotStep_preserves {r : Bool} {st : CleanState} (h : Canon r st) :
    Canon r (dotdotStep r st) := by
  unfold dotdotStep
  by_cases h1 : st.out.length > st.dotdot
  · rw [if_pos h1]
    obtain ⟨st', e, hc, he, hst⟩ := h.inv_of_gt h1
    have hb := backtrack_elemStep r st' e hc he
    have hd : st.dotdot = st'.dotdot := by rw [hst]; rfl
    rw [hd, hst, hb]
    exact hc
  · rw [if_neg h1]
    by_cases h2 : r = false
    · rw [if_pos h2]
      exact Canon.dots _ st h2 h (by have := h.dotdot_le; omega) rfl
    · rw [if_neg h2]
      exact h

theorem Canon.run_preserves {r : Bool} : ∀ (n : Nat) (p : GoString), p.length ≤ n →
    ∀ st, Canon r st → Canon r (run r p st) := by
  intro n
  induction n with
  | zero =>
    intro p hp st h
    have : p = [] := List.length_eq_zero.mp (Nat.le_zero.mp hp)
    subst this
    exact h
  | succ n ih =>
    intro p hp st h
    cases p with
    | nil => exact h
    | cons c rest =>
      have hr : rest.length ≤ n := by simpa using hp
      rw [run_cons']
      by_cases h1 : c = '/'
      · rw [if_pos h1]; exact ih rest hr st h
      · rw [if_neg h1]
        by_cases h2 : c = '.' ∧ atEnd rest
        · rw [if_pos h2]; exact ih rest hr st h
        · rw [if_neg h2]
          by_cases h3 : c = '.' ∧ rest.head? = some '.' ∧ atEnd rest.tail
          · rw [if_pos h3]
            exact ih _ (by have : rest.tail.length ≤ rest.length := by simp
                           omega) _ h.dotdotStep_preserves
          · rw [if_neg h3]
            exact ih _ (by have := dropWhile_length_le c rest h1; omega) _
              (Canon.elem _ st _ h (takeWhile_real c rest h1 h2 h3) rfl)

theorem cleanInit_eq (p : GoString) : cleanInit p = initState (isRooted p) := rfl

theorem Canon.of_cleanRun (p : GoString) : Canon (isRooted p) (cleanRun p) := by
  rw [cleanRun_eq, cleanInit_eq]
  exact Canon.run_preserves _ _ (le_refl _) _ (Canon.init _ rfl)

theorem run_dotdot (r : Bool) (st : CleanState) : run r ['.', '.'] st = dotdotStep r st := by
  have h1 : ¬(('.' : Char) = '/') := by decide
  have h2 : ¬(('.' : Char) = '.' ∧ atEnd ['.']) := by simp [atEnd]
  have h3 : ('.' : Char) = '.' ∧ (['.'] : GoString).head? = some '.' ∧
      atEnd (['.'] : GoString).tail := by simp [atEnd]
  rw [run_cons', if_neg h1, if_neg h2, if_pos h3]
  rfl

theorem Canon.run_out {r : Bool} {st : CleanState} (h : Canon r st) :
    run r (if r then st.out.tail else st.out) (initState r) = st := by
  induction h with
  | init st h => subst h; cases r <;> rfl
  | elem st st' e hc he h ih =>
    subst h
    have hout : (elemStep r st' e).out = withSlash r st'.out ++ e := rfl
    cases r with
    | true =>
      have ih' : run true st'.out.tail (initState true) = st' := ih
      show run true (elemStep true st' e).out.tail (initState true) = elemStep true st' e
      obtain ⟨_, hhead⟩ := hc.rooted
      cases ho : st'.out with
      | nil => rw [ho] at hhead; simp at hhead
      | cons a o =>
        by_cases hl : o = []
        · have hw : withSlash true st'.out = st'.out := by
            rw [withSlash, if_neg]
            rw [ho, hl]
            simp
          have hinit : initState true = st' := by
            rw [ho, hl] at ih'
            exact ih'
          have htail : (st'.out ++ e).tail = e := by
            rw [ho, hl]; rfl
          rw [hout, hw, htail, run_real _ _ _ he, hinit]
        · have hlen : st'.out.length ≠ 1 := by
            rw [ho]; simpa using hl
          have hw : withSlash true st'.out = st'.out ++ ['/'] := by
            rw [withSlash, if_pos (Or.inl ⟨rfl, hlen⟩)]
          have htail : (st'.out ++ ['/'] ++ e).tail = st'.out.tail ++ '/' :: e := by
            rw [ho]; simp
          rw [hout, hw, htail, run_append_slash', ih', run_real _ _ _ he]
    | false =>
      have ih' : run false st'.out (initState false) = st' := ih
      show run false (elemStep false st' e).out (initState false) = elemStep false st' e
      by_cases hl : st'.out = []
      · have hw : withSlash false st'.out = st'.out := by
          rw [withSlash, if_neg]
          rw [hl]
          simp
        have hinit : initState false = st' := by
          rw [hl] at ih'
          exact ih'
        have happ : st'.out ++ e = e := by rw [hl]; rfl
        rw [hout, hw, happ, run_real _ _ _ he, hinit]
      · have hlen : st'.out.length ≠ 0 := by
          simpa using hl
        have hw : withSlash false st'.out = st'.out ++ ['/'] := by
          rw [withSlash, if_pos (Or.inr ⟨rfl, hlen⟩)]
        have happ : st'.out ++ ['/'] ++ e = st'.out ++ '/' :: e := by simp
        rw [hout, hw, happ, run_append_slash', ih', run_real _ _ _ he]
  | dots st st' hr hc hl h ih =>
    subst h
    subst hr
    have ih' : run false st'.out (initState false) = st' := ih
    have hstep : dotdotStep false st' =
        ⟨(if st'.out.length > 0 then st'.out ++ ['/'] else st'.out) ++ ['.', '.'],
          ((if st'.out.length > 0 then st'.out ++ ['/'] else st'.out) ++ ['.', '.']).length⟩ := by
      unfold dotdotStep
      rw [if_neg (by omega), if_pos rfl]
    show run false ((if st'.out.length > 0 then st'.out ++ ['/'] else st'.out) ++ ['.', '.'])
      (initState false) = _
    rw [← hstep]
    by_cases hpos : st'.out.length > 0
    · have happ : st'.out ++ ['/'] ++ ['.', '.'] = st'.out ++ '/' :: ['.', '.'] := by simp
      rw [if_pos hpos, happ, run_append_slash', ih', run_dotdot]
    · have hnil : st'.out = [] := by
        apply List.length_eq_zero.mp; omega
      have hinit : initState false = st' := by
        rw [hnil] at ih'
        exact ih'
      rw [if_neg hpos, hnil, List.nil_append, run_dotdot, hinit]

theorem Canon.isRooted_out {r : Bool} {st : CleanState} (h : Canon r st) :
    st.out ≠ [] → isRooted st.out = r := by
  intro _
  cases r with
  | true => simp [isRooted, h.rooted.2]
  | false =>
    have := h.unrooted
    simp only [isRooted, decide_eq_false_iff_not]
    exact this

theorem Canon.cleanRun_out {r : Bool} {st : CleanState} (h : Canon r st)
    (hne : st.out ≠ []) : cleanRun st.out = st := by
  rw [cleanRun_eq, cleanInit_eq, h.isRooted_out hne]
  exact h.run_out

theorem Clean_idempotent_state {r : Bool} {st : CleanState} (h : Canon r st)
    (hne : st.out ≠ []) : Clean st.out = st.out := by
  unfold Clean
  rw [if_neg hne]
  simp only [h.cleanRun_out hne]
  rw [if_neg (by simpa using hne)]

theorem Clean_eq_out (p : GoString) (h : (cleanRun p).out ≠ []) :
    Clean p = (cleanRun p).out := by
  have hp : p ≠ [] := by
    rintro rfl
    exact h rfl
  unfold Clean
  rw [if_neg hp]
  simp only []
  rw [if_neg (by simpa using h)]

theorem Clean_eq_dot (p : GoString) (h : (cleanRun p).out = []) : Clean p = ['.'] := by
  unfold Clean
  by_cases hp : p = []
  · rw [if_pos hp]
  · rw [if_neg hp]
    simp only []
    rw [if_pos (by rw [h]; rfl)]

theorem Clean_append_slash (p : GoString) (hp : p ≠ []) : Clean (p ++ ['/']) = Clean p := by
  obtain ⟨_, h2⟩ := cleanRun_append_slash p hp
  unfold Clean
  rw [if_neg hp, if_neg (by simp), h2]

/-- The directory of a file name put behind what `Clean` wrote for the directory part
`X` is `Clean X`. -/
theorem Dir_dirPrefix (X s : GoString) (hs : '/' ∉ s) :
    Dir (dirPrefix X ++ s) = Clean X := by
  have hc := Canon.of_cleanRun X
  unfold Dir dirPrefix withSlash
  by_cases hcond : (isRooted X = true ∧ (cleanRun X).out.length ≠ 1) ∨
      (isRooted X = false ∧ (cleanRun X).out.length ≠ 0)
  · rw [if_pos hcond]
    have hne : (cleanRun X).out ≠ [] := by
      rcases hcond with ⟨hr, _⟩ | ⟨_, hl⟩
      · rw [hr] at hc
        intro h
        have := hc.rooted.2
        rw [h] at this
        simp at this
      · intro h; rw [h] at hl; simp at hl
    rw [Split_append _ s (Or.inr (by simp)) hs]
    simp only []
    rw [Clean_append_slash _ hne, Clean_idempotent_state hc hne, Clean_eq_out X hne]
  · rw [if_neg hcond]
    cases hr : isRooted X with
    | true =>
      rw [hr] at hc hcond
      have hlen : (cleanRun X).out.length = 1 := by
        by_contra h; exact hcond (Or.inl ⟨rfl, h⟩)
      have hout : (cleanRun X).out = ['/'] := by
        have hh := hc.rooted.2
        cases ho : (cleanRun X).out with
        | nil => rw [ho] at hlen; simp at hlen
        | cons a o =>
          rw [ho] at hlen hh
          have : o = [] := by simpa using hlen
          subst this
          simp at hh
          rw [hh]
      rw [hout, Split_append ['/'] s (Or.inr rfl) hs]
      simp only []
      rw [Clean_eq_out X (by rw [hout]; simp), hout]
      decide
    | false =>
      rw [hr] at hcond
      have hlen : (cleanRun X).out.length = 0 := by
        by_contra h; exact hcond (Or.inr ⟨rfl, h⟩)
      have hout : (cleanRun X).out = [] := List.length_eq_zero.mp hlen
      rw [hout, Split_append [] s (Or.inl rfl) hs]
      simp only []
      rw [Clean_eq_dot X hout]
      decide

end path

namespace path

theorem lastSlashFrom_no_slash (q : GoString) : ∀ (n i : Nat),
    lastSlashFrom q n ≤ i → i < n → q[i]? ≠ some '/' := by
  intro n
  induction n with
  | zero => intro i _ h; omega
  | succ n ih =>
    intro i h1 h2
    simp only [lastSlashFrom] at h1
    by_cases hq : q[n]? ≠ some '/'
    · rw [if_pos hq] at h1
      by_cases hi : i = n
      · rw [hi]; exact hq
      · exact ih i h1 (by omega)
    · rw [if_neg hq] at h1
      omega

theorem drop_lastSlashSucc_no_slash (q : GoString) : '/' ∉ q.drop (lastSlashSucc q) := by
  intro h
  obtain ⟨i, hi⟩ := List.mem_iff_getElem?.mp h
  rw [List.getElem?_drop] at hi
  have hlt : lastSlashSucc q + i < q.length := by
    by_contra hge
    rw [List.getElem?_eq_none (by omega)] at hi
    simp at hi
  exact lastSlashFrom_no_slash q q.length _ (Nat.le_add_right _ _) hlt hi

theorem Base_no_slash (p : GoString) : '/' ∉ Base p ∨ Base p = ['/'] := by
  unfold Base
  by_cases hp : p = []
  · left; rw [if_pos hp]; decide
  · rw [if_neg hp]
    simp only []
    split_ifs with h
    · right; rfl
    · left; exact drop_lastSlashSucc_no_slash _

end path

/-! ## The artifact path of the Tarball service -/

namespace services

theorem backup_segment_real (u ts : GoString) (hu : '/' ∉ u) (hts : '/' ∉ ts) :
    path.RealElem (u ++ '-' :: (ts ++ ".tar".toList)) := by
  refine ⟨by simp, ?_, ?_, ?_⟩
  · simp only [List.mem_append, List.mem_cons, not_or]
    exact ⟨hu, by decide, hts, by decide⟩
  · intro h
    have := congrArg List.length h
    simp at this
    omega
  · intro h
    have := congrArg List.length h
    simp at this
    omega

theorem Tarball.backupFilepath_shape (env : Env) (f : Tarball) (A u : GoString)
    (hsplit : env.SaveDir ++ '/' :: f.backupName = A ++ '/' :: u) (hu : '/' ∉ u) :
    f.backupFilepath env =
      path.dirPrefix (A ++ ['/']) ++
        (u ++ '-' :: (env.now.Format20060102150405 ++ ".tar".toList)) ++
        (if f.Compress then ".gz".toList else []) := by
  have hraw : env.SaveDir ++ "/".toList ++ f.backupName ++ "-".toList ++
      env.now.Format20060102150405 ++ ".tar".toList =
      A ++ '/' :: (u ++ '-' :: (env.now.Format20060102150405 ++ ".tar".toList)) := by
    have h1 : "/".toList = ['/'] := rfl
    have h2 : "-".toList = ['-'] := rfl
    rw [h1, h2]
    simp only [List.append_assoc, List.singleton_append]
    rw [← List.append_assoc, ← List.cons_append, ← List.append_assoc, hsplit]
    simp only [List.append_assoc, List.cons_append]
  unfold Tarball.backupFilepath
  simp only []
  rw [hraw, path.Clean_append_real A _
    (backup_segment_real u _ hu (Format_no_slash env.now))]
  cases f.Compress <;> simp

theorem Tarball.backupFilepath_split (env : Env) (f : Tarball) :
    ∃ A u, env.SaveDir ++ '/' :: f.backupName = A ++ '/' :: u ∧ '/' ∉ u :=
  path.exists_last_slash _ (by simp)

theorem Tarball.backupFilepath_tar (env : Env) (f : Tarball) :
    ∃ x, f.backupFilepath env =
      x ++ ".tar".toList ++ (if f.Compress then ".gz".toList else []) := by
  obtain ⟨A, u, hsplit, hu⟩ := Tarball.backupFilepath_split env f
  refine ⟨path.dirPrefix (A ++ ['/']) ++ (u ++ '-' :: env.now.Format20060102150405), ?_⟩
  rw [Tarball.backupFilepath_shape env f A u hsplit hu]
  simp only [List.append_assoc, List.cons_append]

theorem Tarball.HasSuffix_backupFilepath (env : Env) (f : Tarball) :
    strings.HasSuffix (f.backupFilepath env) ".gz".toList = f.Compress := by
  obtain ⟨x, hx⟩ := Tarball.backupFilepath_tar env f
  rw [hx]
  cases f.Compress
  · simp only [Bool.false_eq_true, if_false, List.append_nil]
    exact strings.HasSuffix_tar_gz x
  · simp only [if_true]
    exact strings.HasSuffix_append _ _

end services

/-! ## Error reporting and name selection of the Tarball service -/

namespace services

theorem Tarball.Backup_call (env : Env) (f : Tarball) :
    (f.Backup env).call =
      .Make (if f.Compress then Codec.TarGz else Codec.Tar) (f.backupFilepath env) [f.Path] := by
  unfold Tarball.Backup
  cases f.Compress <;> simp <;> split <;> rfl

theorem Tarball.Backup_err (env : Env) (f : Tarball) :
    (f.Backup env).err = (env.archiver (f.Backup env).call).map
      (fun cause => "cannot create tarball on ".toList ++ f.backupFilepath env ++
        ", ".toList ++ cause) := by
  unfold Tarball.Backup
  cases f.Compress <;> simp <;> split <;> simp_all

theorem Tarball.Backup_filepath (env : Env) (f : Tarball) :
    (f.Backup env).filepath =
      if (f.Backup env).err = none then f.backupFilepath env else [] := by
  unfold Tarball.Backup
  cases f.Compress <;> simp <;> split <;> simp_all

theorem Tarball.Backup_ok {env : Env} {f : Tarball} (h : (f.Backup env).err = none) :
    (f.Backup env).filepath = f.backupFilepath env := by
  rw [Tarball.Backup_filepath, if_pos h]

theorem Tarball.Restore_call (env : Env) (f : Tarball) (p : GoString) :
    (f.Restore env p).call =
      .Open (if strings.HasSuffix p ".gz".toList then Codec.TarGz else Codec.Tar) p f.Path := by
  unfold Tarball.Restore
  cases strings.HasSuffix p ".gz".toList <;> simp <;> split <;> rfl

theorem Tarball.Restore_err (env : Env) (f : Tarball) (p : GoString) :
    (f.Restore env p).err = (env.archiver (f.Restore env p).call).map
      (fun cause => "cannot unpack tarball on ".toList ++ p ++ ", ".toList ++ cause) := by
  unfold Tarball.Restore
  cases strings.HasSuffix p ".gz".toList <;> simp <;> split <;> simp_all

/-- C7: `Backup` reports an error exactly when the archive creation fails and `Restore`
exactly when the unpacking fails.  A failing `Backup` returns the empty path and an error
made of the operation context, the artifact path that was being written and the cause;
a succeeding `Backup` returns that artifact path and no error; a failing `Restore`
returns an error made of the operation context, the path that was being read and the
cause. -/
theorem tarball_error_reporting (env : Env) (f : Tarball) (p : GoString) :
    ((f.Backup env).err ≠ none ↔ env.archiver (f.Backup env).call ≠ none) ∧
    (∃ codec, (f.Backup env).call = .Make codec (f.backupFilepath env) [f.Path]) ∧
    (∀ cause, env.archiver (f.Backup env).call = some cause →
      (f.Backup env).filepath = [] ∧
      (f.Backup env).err = some ("cannot create tarball on ".toList ++ f.backupFilepath env ++
        ", ".toList ++ cause)) ∧
    (env.archiver (f.Backup env).call = none →
      (f.Backup env).filepath = f.backupFilepath env ∧ (f.Backup env).err = none) ∧
    ((f.Restore env p).err ≠ none ↔ env.archiver (f.Restore env p).call ≠ none) ∧
    (∃ codec, (f.Restore env p).call = .Open codec p f.Path) ∧
    (∀ cause, env.archiver (f.Restore env p).call = some cause →
      (f.Restore env p).err = some ("cannot unpack tarball on ".toList ++ p ++
        ", ".toList ++ cause)) ∧
    (env.archiver (f.Restore env p).call = none → (f.Restore env p).err = none) := by
  refine ⟨?_, ⟨_, Tarball.Backup_call env f⟩, ?_, ?_, ?_, ⟨_, Tarball.Restore_call env f p⟩, ?_, ?_⟩
  · rw [Tarball.Backup_err]; simp
  · intro cause h
    have he := Tarball.Backup_err env f
    rw [h] at he
    refine ⟨?_, by simpa using he⟩
    rw [Tarball.Backup_filepath, if_neg]
    rw [he]; simp
  · intro h
    have he := Tarball.Backup_err env f
    rw [h] at he
    exact ⟨Tarball.Backup_ok (by simpa using he), by simpa using he⟩
  · rw [Tarball.Restore_err]; simp
  · intro cause h
    rw [Tarball.Restore_err, h]; rfl
  · intro h
    rw [Tarball.Restore_err, h]; rfl

/-- C7, at an archiver that fails with "disk full": the backup of `/data/site` returns
the empty path and the error naming the artifact. -/
theorem tarball_error_reporting_witness :
    (Tarball.Backup ⟨"/backups".toList, ⟨2018, 6, 1, 10, 0, 0⟩, fun _ => some "disk full".toList⟩
        ⟨[], "/data/site".toList, true⟩).filepath = [] ∧
    (Tarball.Backup ⟨"/backups".toList, ⟨2018, 6, 1, 10, 0, 0⟩, fun _ => some "disk full".toList⟩
        ⟨[], "/data/site".toList, true⟩).err =
      some ("cannot create tarball on /backups/site-backup-20180601100000.tar.gz, disk full".toList) :=
  (tarball_error_reporting
      ⟨"/backups".toList, ⟨2018, 6, 1, 10, 0, 0⟩, fun _ => some "disk full".toList⟩
      ⟨[], "/data/site".toList, true⟩ []).2.2.1 "disk full".toList rfl

/-- C4: the artifact path is built from `Name` when it is non-empty and from
`path.Base(Path)` otherwise.  Two successful backups with the same non-empty `Name`
return the same path whatever their `Path`, and two with an empty `Name` return the same
path when their source paths have the same last segment, as `/data/site` and
`/srv/site/` have. -/
theorem logical_name_selection (env : Env) (f g : Tarball)
    (hf : (f.Backup env).err = none) (hg : (g.Backup env).err = none)
    (hc : f.Compress = g.Compress) :
    ((f.Backup env).filepath =
      path.Clean (env.SaveDir ++ "/".toList ++
          ((if f.Name ≠ [] then f.Name else path.Base f.Path) ++ "-backup".toList) ++
          "-".toList ++ env.now.Format20060102150405 ++ ".tar".toList) ++
        (if f.Compress then ".gz".toList else [])) ∧
    (f.Name ≠ [] → f.Name = g.Name → (f.Backup env).filepath = (g.Backup env).filepath) ∧
    (f.Name = [] → g.Name = [] → path.Base f.Path = path.Base g.Path →
      (f.Backup env).filepath = (g.Backup env).filepath) ∧
    path.Base "/data/site".toList = "site".toList ∧
    path.Base "/srv/site/".toList = "site".toList := by
  rw [Tarball.Backup_ok hf, Tarball.Backup_ok hg]
  refine ⟨?_, ?_, ?_, by decide, by decide⟩
  · unfold Tarball.backupFilepath Tarball.backupName
    by_cases hn : f.Name = [] <;> cases f.Compress <;> simp [hn]
  · intro hn he
    have hn2 : g.Name ≠ [] := he ▸ hn
    simp only [Tarball.backupFilepath, Tarball.backupName, hn, hn2, ← he, hc, ne_eq,
      not_false_eq_true, if_true]
  · intro hn hn2 hb
    simp only [Tarball.backupFilepath, Tarball.backupName, hn, hn2, hb, hc, ne_eq,
      not_true_eq_false, if_false]

/-- C4, at the sources `/data/site` and `/srv/site/` with an empty `Name`: both backups
return `/backups/site-backup-20180601100000.tar.gz`. -/
theorem logical_name_selection_witness :
    (Tarball.Backup ⟨"/backups".toList, ⟨2018, 6, 1, 10, 0, 0⟩, fun _ => none⟩
        ⟨[], "/data/site".toList, true⟩).filepath =
      (Tarball.Backup ⟨"/backups".toList, ⟨2018, 6, 1, 10, 0, 0⟩, fun _ => none⟩
        ⟨[], "/srv/site/".toList, true⟩).filepath :=
  (logical_name_selection ⟨"/backups".toList, ⟨2018, 6, 1, 10, 0, 0⟩, fun _ => none⟩
      ⟨[], "/data/site".toList, true⟩ ⟨[], "/srv/site/".toList, true⟩
      (by decide) (by decide) rfl).2.2.1 rfl rfl (by decide)

end services

namespace services

/-- C1: with an empty `Name`, a save directory that is an absolute, clean path without a
trailing slash, a source path whose last segment is the plain name `s` (followed by any
number of slashes), and a time with a year in 0000..9999, a successful `Backup` returns
exactly `SaveDir/s-backup-yyyyMMddHHmmss.tar`, followed by `.gz` when `Compress` is
set. -/
theorem backup_artifact_path (env : Env) (f : Tarball) (d s : GoString) (k : Nat)
    (hname : f.Name = [])
    (habs : env.SaveDir.head? = some '/') (hclean : path.Clean env.SaveDir = env.SaveDir)
    (hlast : env.SaveDir.getLast? ≠ some '/')
    (hpath : f.Path = d ++ s ++ List.replicate k '/')
    (hd : d = [] ∨ d.getLast? = some '/') (hne : s ≠ []) (hs : '/' ∉ s)
    (hv : env.now.Valid) (hy0 : 0 ≤ env.now.year) (hy1 : env.now.year ≤ 9999)
    (hok : (f.Backup env).err = none) :
    (f.Backup env).filepath =
      env.SaveDir ++ "/".toList ++ s ++ "-backup-".toList ++ yyyyMMddHHmmss env.now ++
        ".tar".toList ++ (if f.Compress then ".gz".toList else []) := by
  have hbase : path.Base f.Path = s := by
    rw [hpath]; exact path.Base_last_segment d s k hd hne hs
  have hbn : f.backupName = s ++ "-backup".toList := by
    unfold Tarball.backupName
    rw [if_neg (by simp [hname]), hbase]
  have hu : '/' ∉ s ++ "-backup".toList := by
    simp only [List.mem_append, not_or]
    exact ⟨hs, by decide⟩
  rw [Tarball.Backup_ok hok,
    Tarball.backupFilepath_shape env f env.SaveDir (s ++ "-backup".toList) (by rw [hbn]) hu,
    path.dirPrefix_of_clean _ habs hclean hlast, Format_eq_pad _ hv hy0 hy1]
  have h1 : "/".toList = ['/'] := rfl
  have h2 : "-backup-".toList = "-backup".toList ++ ['-'] := rfl
  rw [h1, h2]
  unfold yyyyMMddHHmmss
  simp only [List.append_assoc, List.cons_append, List.nil_append]

/-- C1, at the scenario of the spec: `Path=/data/site`, `Name` empty, `Compress` set,
`SaveDir=/backups`, 2018-06-01T10:00:00. -/
theorem backup_artifact_path_witness :
    (Tarball.Backup ⟨"/backups".toList, ⟨2018, 6, 1, 10, 0, 0⟩, fun _ => none⟩
        ⟨[], "/data/site".toList, true⟩).filepath =
      "/backups/site-backup-20180601100000.tar.gz".toList :=
  backup_artifact_path ⟨"/backups".toList, ⟨2018, 6, 1, 10, 0, 0⟩, fun _ => none⟩
    ⟨[], "/data/site".toList, true⟩ "/data/".toList "site".toList 0
    rfl (by decide) (by decide) (by decide) (by decide) (by decide) (by decide) (by decide)
    (by decide) (by decide) (by decide) (by decide)

/-- C2: for every configuration, save directory and time, the path a successful `Backup`
returns ends in `.tar.gz` when `Compress` is set, and ends in `.tar` and not in `.gz`
when it is not; the archive is made with the gzip-tar format exactly when `Compress` is
set. -/
theorem compression_suffix (env : Env) (f : Tarball) (hok : (f.Backup env).err = none) :
    (f.Compress = true →
      strings.HasSuffix (f.Backup env).filepath ".tar.gz".toList = true) ∧
    (f.Compress = false →
      strings.HasSuffix (f.Backup env).filepath ".tar".toList = true ∧
      strings.HasSuffix (f.Backup env).filepath ".gz".toList = false) ∧
    ((f.Backup env).call.codec = Codec.TarGz ↔ f.Compress = true) ∧
    ((f.Backup env).call.codec = Codec.Tar ↔ f.Compress = false) := by
  obtain ⟨x, hx⟩ := Tarball.backupFilepath_tar env f
  rw [Tarball.Backup_ok hok, Tarball.Backup_call]
  refine ⟨?_, ?_, ?_, ?_⟩
  · intro hc
    rw [hx, hc, if_pos rfl, List.append_assoc]
    exact strings.HasSuffix_append x _
  · intro hc
    refine ⟨?_, ?_⟩
    · rw [hx, hc]
      simp only [Bool.false_eq_true, if_false, List.append_nil]
      exact strings.HasSuffix_append x _
    · rw [Tarball.HasSuffix_backupFilepath, hc]
  · cases f.Compress <;> simp [ArchiverCall.codec]
  · cases f.Compress <;> simp [ArchiverCall.codec]

/-- C2, at a name and a save directory that `path.Clean` rewrites: the path of the
uncompressed backup ends in `.tar` and not in `.gz`. -/
theorem compression_suffix_witness :
    strings.HasSuffix
        (Tarball.Backup ⟨"/backups/../x.gz/".toList, ⟨2018, 6, 1, 10, 0, 0⟩, fun _ => none⟩
          ⟨"a/../b.gz".toList, "/data/site".toList, false⟩).filepath ".tar".toList = true ∧
    strings.HasSuffix
        (Tarball.Backup ⟨"/backups/../x.gz/".toList, ⟨2018, 6, 1, 10, 0, 0⟩, fun _ => none⟩
          ⟨"a/../b.gz".toList, "/data/site".toList, false⟩).filepath ".gz".toList = false :=
  (compression_suffix ⟨"/backups/../x.gz/".toList, ⟨2018, 6, 1, 10, 0, 0⟩, fun _ => none⟩
    ⟨"a/../b.gz".toList, "/data/site".toList, false⟩ (by decide)).2.1 rfl

/-- C3: for a path returned by a successful `Backup`, `Restore` (of any Tarball service,
under any archiver) opens it with the format `Backup` made it with: the gzip-tar decoder
if and only if the gzip-tar encoder wrote it, the plain tar decoder otherwise. -/
theorem format_rederivation (env env' : Env) (f f' : Tarball)
    (hok : (f.Backup env).err = none) :
    (f'.Restore env' (f.Backup env).filepath).call.codec = (f.Backup env).call.codec ∧
    ((f'.Restore env' (f.Backup env).filepath).call.codec = Codec.TarGz ↔
      (f.Backup env).call.codec = Codec.TarGz) ∧
    ((f'.Restore env' (f.Backup env).filepath).call.codec = Codec.Tar ↔
      (f.Backup env).call.codec = Codec.Tar) := by
  have h : (f'.Restore env' (f.Backup env).filepath).call.codec =
      (f.Backup env).call.codec := by
    rw [Tarball.Restore_call, Tarball.Backup_call, Tarball.Backup_ok hok,
      Tarball.HasSuffix_backupFilepath]
    cases f.Compress <;> rfl
  exact ⟨h, by rw [h], by rw [h]⟩

/-- C3, at a name, a source path and a save directory that all end in `.gz`: the
uncompressed backup is restored with the plain tar decoder. -/
theorem format_rederivation_witness :
    (Tarball.Restore ⟨[], ⟨2018, 6, 2, 0, 0, 0⟩, fun _ => none⟩ ⟨[], "/restore".toList, true⟩
      (Tarball.Backup ⟨"/backups.gz".toList, ⟨2018, 6, 1, 10, 0, 0⟩, fun _ => none⟩
        ⟨"site.gz".toList, "/data/site.gz".toList, false⟩).filepath).call.codec = Codec.Tar :=
  (format_rederivation ⟨"/backups.gz".toList, ⟨2018, 6, 1, 10, 0, 0⟩, fun _ => none⟩
    ⟨[], ⟨2018, 6, 2, 0, 0, 0⟩, fun _ => none⟩
    ⟨"site.gz".toList, "/data/site.gz".toList, false⟩ ⟨[], "/restore".toList, true⟩
    (by decide)).2.2.2 (by decide)

/-- C5: for one save directory, two Tarball configurations with the same logical name
(the same `name` in `Backup`) and the same `Compress` flag, and two valid times `t1`
before `t2` (in the order of year, month, day, hour, minute, second) with years in
0000..9999, the path of a successful backup at `t1` is strictly smaller in lexicographic
order than the path of one at `t2`; in particular the two paths differ. -/
theorem artifact_names_sort (env1 env2 : Env) (f1 f2 : Tarball)
    (hdir : env1.SaveDir = env2.SaveDir)
    (hname : f1.backupName = f2.backupName) (hc : f1.Compress = f2.Compress)
    (hv1 : env1.now.Valid) (hv2 : env2.now.Valid)
    (hy1 : 0 ≤ env1.now.year ∧ env1.now.year ≤ 9999)
    (hy2 : 0 ≤ env2.now.year ∧ env2.now.year ≤ 9999)
    (hlt : env1.now.before env2.now)
    (hok1 : (f1.Backup env1).err = none) (hok2 : (f2.Backup env2).err = none) :
    List.Lex (· < ·) (f1.Backup env1).filepath (f2.Backup env2).filepath ∧
    (f1.Backup env1).filepath ≠ (f2.Backup env2).filepath := by
  obtain ⟨A, u, hsplit, hu⟩ := Tarball.backupFilepath_split env1 f1
  have hlex : List.Lex (· < ·) (f1.Backup env1).filepath (f2.Backup env2).filepath := by
    rw [Tarball.Backup_ok hok1, Tarball.Backup_ok hok2,
      Tarball.backupFilepath_shape env1 f1 A u hsplit hu,
      Tarball.backupFilepath_shape env2 f2 A u (hdir ▸ hname ▸ hsplit) hu,
      Format_eq_pad _ hv1 hy1.1 hy1.2, Format_eq_pad _ hv2 hy2.1 hy2.2, hc]
    simp only [List.append_assoc, List.cons_append]
    apply List.Lex.append_left
    apply List.Lex.append_left
    apply List.Lex.cons
    exact lex_append_same_length (stamp_lt _ _ hv1 hv2 hy1.1 hy2.2 hlt)
      (by rw [stamp_length, stamp_length]) _ _
  exact ⟨hlex, lex_ne hlex⟩

/-- C5, at two backups into `/backups` one second apart, across the turn of the year, of
the sources `/data/site` and `/srv/site/`, which have the same logical name. -/
theorem artifact_names_sort_witness :
    List.Lex (· < ·)
      (Tarball.Backup ⟨"/backups".toList, ⟨2018, 12, 31, 23, 59, 59⟩, fun _ => none⟩
        ⟨[], "/data/site".toList, true⟩).filepath
      (Tarball.Backup ⟨"/backups".toList, ⟨2019, 1, 1, 0, 0, 0⟩, fun _ => none⟩
        ⟨[], "/srv/site/".toList, true⟩).filepath :=
  (artifact_names_sort ⟨"/backups".toList, ⟨2018, 12, 31, 23, 59, 59⟩, fun _ => none⟩
    ⟨"/backups".toList, ⟨2019, 1, 1, 0, 0, 0⟩, fun _ => none⟩
    ⟨[], "/data/site".toList, true⟩ ⟨[], "/srv/site/".toList, true⟩ rfl (by decide) rfl
    (by decide) (by decide) (by decide) (by decide) (by decide) (by decide) (by decide)).1

end services

namespace services

theorem Tarball.backupName_split (f : Tarball) (hname : '/' ∉ f.Name) :
    '/' ∉ f.backupName ∨ f.backupName = '/' :: "-backup".toList := by
  unfold Tarball.backupName
  by_cases hn : f.Name = []
  · rw [if_neg (by simp [hn])]
    rcases path.Base_no_slash f.Path with h | h
    · left
      simp only [List.mem_append, not_or]
      exact ⟨h, by decide⟩
    · right
      rw [h]; rfl
  · rw [if_pos hn]
    left
    simp only [List.mem_append, not_or]
    exact ⟨hname, by decide⟩

theorem Tarball.Dir_backupFilepath (env : Env) (f : Tarball) (hname : '/' ∉ f.Name)
    (hdir : env.SaveDir ≠ []) :
    path.Dir (f.backupFilepath env) = path.Clean env.SaveDir := by
  have hgz : '/' ∉ (if f.Compress then ".gz".toList else []) := by
    cases f.Compress <;> decide
  have hseg : ∀ u : GoString, '/' ∉ u →
      '/' ∉ (u ++ '-' :: (env.now.Format20060102150405 ++ ".tar".toList)) ++
        (if f.Compress then ".gz".toList else []) := by
    intro u hu
    simp only [List.mem_append, List.mem_cons, not_or]
    exact ⟨⟨hu, by decide, Format_no_slash _, by decide⟩, hgz⟩
  rcases Tarball.backupName_split f hname with h | h
  · rw [Tarball.backupFilepath_shape env f env.SaveDir f.backupName rfl h,
      List.append_assoc, path.Dir_dirPrefix _ _ (hseg _ h),
      path.Clean_append_slash _ hdir]
  · have hu : '/' ∉ "-backup".toList := by decide
    rw [Tarball.backupFilepath_shape env f (env.SaveDir ++ ['/']) "-backup".toList
        (by rw [h]; simp) hu,
      List.append_assoc, path.Dir_dirPrefix _ _ (hseg _ hu),
      path.Clean_append_slash _ (by simp), path.Clean_append_slash _ hdir]

/-- C6 as stated fails: with `Name = "a/b"` the backup into `/backups` succeeds and
returns `/backups/a/b-backup-20180601100000.tar`, whose directory is `/backups/a`, not
`/backups`; and with an empty save directory the backup of `/data/site` returns
`/site-backup-20180601100000.tar`, whose directory is `/`, not `path.Clean("") = "."`. -/
theorem artifact_not_in_save_directory :
    ((Tarball.Backup ⟨"/backups".toList, ⟨2018, 6, 1, 10, 0, 0⟩, fun _ => none⟩
        ⟨"a/b".toList, "/data/site".toList, false⟩).err = none ∧
      (Tarball.Backup ⟨"/backups".toList, ⟨2018, 6, 1, 10, 0, 0⟩, fun _ => none⟩
        ⟨"a/b".toList, "/data/site".toList, false⟩).filepath =
        "/backups/a/b-backup-20180601100000.tar".toList ∧
      path.Dir (Tarball.Backup ⟨"/backups".toList, ⟨2018, 6, 1, 10, 0, 0⟩, fun _ => none⟩
        ⟨"a/b".toList, "/data/site".toList, false⟩).filepath = "/backups/a".toList ∧
      path.Clean "/backups".toList = "/backups".toList ∧
      path.Dir (Tarball.Backup ⟨"/backups".toList, ⟨2018, 6, 1, 10, 0, 0⟩, fun _ => none⟩
        ⟨"a/b".toList, "/data/site".toList, false⟩).filepath ≠
        path.Clean "/backups".toList) ∧
    ((Tarball.Backup ⟨[], ⟨2018, 6, 1, 10, 0, 0⟩, fun _ => none⟩
        ⟨[], "/data/site".toList, false⟩).err = none ∧
      (Tarball.Backup ⟨[], ⟨2018, 6, 1, 10, 0, 0⟩, fun _ => none⟩
        ⟨[], "/data/site".toList, false⟩).filepath =
        "/site-backup-20180601100000.tar".toList ∧
      path.Dir (Tarball.Backup ⟨[], ⟨2018, 6, 1, 10, 0, 0⟩, fun _ => none⟩
        ⟨[], "/data/site".toList, false⟩).filepath = "/".toList ∧
      path.Clean [] = ".".toList ∧
      path.Dir (Tarball.Backup ⟨[], ⟨2018, 6, 1, 10, 0, 0⟩, fun _ => none⟩
        ⟨[], "/data/site".toList, false⟩).filepath ≠ path.Clean []) := by
  decide

/-- C6, amended: for every Tarball configuration whose `Name` holds no slash, every
non-empty save directory, every source path and every time, the path a successful
`Backup` returns is a file directly inside the save directory: its `path.Dir` is
`path.Clean(SaveDir)`. -/
theorem artifact_in_save_directory (env : Env) (f : Tarball) (hname : '/' ∉ f.Name)
    (hdir : env.SaveDir ≠ []) (hok : (f.Backup env).err = none) :
    path.Dir (f.Backup env).filepath = path.Clean env.SaveDir := by
  rw [Tarball.Backup_ok hok]
  exact Tarball.Dir_backupFilepath env f hname hdir

/-- C6 amended, at a save directory that is not clean and the source path `/`, whose
base is a slash: the compressed backup lies directly in `/var/backups`. -/
theorem artifact_in_save_directory_witness :
    path.Dir (Tarball.Backup ⟨"/var/lib/../backups/".toList, ⟨2018, 6, 1, 10, 0, 0⟩,
        fun _ => none⟩ ⟨[], "/".toList, true⟩).filepath = "/var/backups".toList :=
  artifact_in_save_directory ⟨"/var/lib/../backups/".toList, ⟨2018, 6, 1, 10, 0, 0⟩,
    fun _ => none⟩ ⟨[], "/".toList, true⟩ (by decide) (by decide) (by decide)

end services

/-! ## The service commands and the configuration records -/

namespace main

/-- C10: the four service commands are called `gogs`, `postgres`, `mysql` and `tarball`,
four distinct names; each has exactly the two subcommands `s3Cmd(parent, name)` and
`filesystemCmd(parent, name)` for its own name; the postgres command declares the
database flags followed by the postgres flags, the mysql command the database flags
alone, with no `postgres-custom` among them. -/
theorem service_store_cross_product (sc : StoreCmds) (parent : GoString) :
    [(gogsCmd sc parent).Name, (postgresCmd sc parent).Name, (mysqlCmd sc parent).Name,
        (tarballCmd sc parent).Name] =
      ["gogs".toList, "postgres".toList, "mysql".toList, "tarball".toList] ∧
    ["gogs".toList, "postgres".toList, "mysql".toList, "tarball".toList].Nodup ∧
    (gogsCmd sc parent).Subcommands =
      [sc.s3Cmd parent "gogs".toList, sc.filesystemCmd parent "gogs".toList] ∧
    (postgresCmd sc parent).Subcommands =
      [sc.s3Cmd parent "postgres".toList, sc.filesystemCmd parent "postgres".toList] ∧
    (mysqlCmd sc parent).Subcommands =
      [sc.s3Cmd parent "mysql".toList, sc.filesystemCmd parent "mysql".toList] ∧
    (tarballCmd sc parent).Subcommands =
      [sc.s3Cmd parent "tarball".toList, sc.filesystemCmd parent "tarball".toList] ∧
    (postgresCmd sc parent).Flags = databaseFlags ++ postgresFlags ∧
    (mysqlCmd sc parent).Flags = databaseFlags ∧
    (gogsCmd sc parent).Flags = gogsFlags ∧
    (tarballCmd sc parent).Flags = tarballFlags ∧
    (∀ f ∈ (mysqlCmd sc parent).Flags, f.Name ≠ "postgres-custom".toList) ∧
    (∃ f ∈ (postgresCmd sc parent).Flags, f.Name = "postgres-custom".toList) := by
  refine ⟨rfl, by decide, rfl, rfl, rfl, rfl, rfl, rfl, rfl, rfl, ?_, ?_⟩
  · show ∀ f ∈ databaseFlags, f.Name ≠ "postgres-custom".toList
    decide
  · show ∃ f ∈ databaseFlags ++ postgresFlags, f.Name = "postgres-custom".toList
    decide

theorem find_gogsFlags :
    ∀ f ∈ gogsFlags, gogsFlags.find? (fun g => g.Name = f.Name) = some f := by
  decide

theorem find_databaseFlags :
    ∀ f ∈ databaseFlags, databaseFlags.find? (fun g => g.Name = f.Name) = some f := by
  decide

theorem find_postgresFlags :
    ∀ f ∈ databaseFlags ++ postgresFlags,
      (databaseFlags ++ postgresFlags).find? (fun g => g.Name = f.Name) = some f := by
  decide

theorem find_tarballFlags :
    ∀ f ∈ tarballFlags, tarballFlags.find? (fun g => g.Name = f.Name) = some f := by
  decide

theorem resolveOption_overlay (src : Sources) (flags : List cli.Flag) (f : cli.Flag)
    (hf : f ∈ flags) : resolveOption src (applyConfigValues flags) f = precedenceChain src f := by
  unfold resolveOption precedenceChain precedence applyConfigValues
  simp only [hf, if_true]
  cases src.flag f.Name <;> cases src.env f.EnvVar <;> cases src.file f.Name <;> rfl

theorem lookupOption_declared (src : Sources) (cmd : cli.Command) (f : cli.Flag)
    (hb : cmd.Before = applyConfigValues cmd.Flags) (hf : f ∈ cmd.Flags)
    (hfind : cmd.Flags.find? (fun g => g.Name = f.Name) = some f) :
    lookupOption src cmd f.Name = some (precedenceChain src f) := by
  unfold lookupOption
  rw [hfind, hb]
  simp [resolveOption_overlay src cmd.Flags f hf]

theorem lookup_gogs (sc : StoreCmds) (parent : GoString) (src : Sources) (f : cli.Flag)
    (hf : f ∈ gogsFlags) :
    lookupOption src (gogsCmd sc parent) f.Name = some (precedenceChain src f) :=
  lookupOption_declared src _ f rfl hf (find_gogsFlags f hf)

theorem lookup_postgres (sc : StoreCmds) (parent : GoString) (src : Sources) (f : cli.Flag)
    (hf : f ∈ databaseFlags ++ postgresFlags) :
    lookupOption src (postgresCmd sc parent) f.Name = some (precedenceChain src f) :=
  lookupOption_declared src _ f rfl hf (find_postgresFlags f hf)

theorem lookup_mysql (sc : StoreCmds) (parent : GoString) (src : Sources) (f : cli.Flag)
    (hf : f ∈ databaseFlags) :
    lookupOption src (mysqlCmd sc parent) f.Name = some (precedenceChain src f) :=
  lookupOption_declared src _ f rfl hf (find_databaseFlags f hf)

theorem lookup_tarball (sc : StoreCmds) (parent : GoString) (src : Sources) (f : cli.Flag)
    (hf : f ∈ tarballFlags) :
    lookupOption src (tarballCmd sc parent) f.Name = some (precedenceChain src f) :=
  lookupOption_declared src _ f rfl hf (find_tarballFlags f hf)

theorem lookups_gogs (sc : StoreCmds) (parent : GoString) (src : Sources) :
    lookupOption src (gogsCmd sc parent) "gogs-config".toList =
      some (precedence src "gogs-config".toList "GOGS_CONFIG".toList (.str [])) ∧
    lookupOption src (gogsCmd sc parent) "gogs-data".toList =
      some (precedence src "gogs-data".toList "GOGS_DATA".toList (.str "/data".toList)) := by
  have H : ∀ f ∈ gogsFlags,
      lookupOption src (gogsCmd sc parent) f.Name = some (precedenceChain src f) :=
    fun f hf => lookup_gogs sc parent src f hf
  simp only [gogsFlags, List.forall_mem_cons, cli.Flag.Name, cli.Flag.EnvVar,
    cli.Flag.Default, precedenceChain] at H
  exact ⟨H.1, H.2.1⟩

theorem lookups_tarball (sc : StoreCmds) (parent : GoString) (src : Sources) :
    lookupOption src (tarballCmd sc parent) "tarball-path".toList =
      some (precedence src "tarball-path".toList "TARBALL_PATH_SOURCE".toList (.str [])) ∧
    lookupOption src (tarballCmd sc parent) "tarball-name".toList =
      some (precedence src "tarball-name".toList "TARBALL_NAME_PREFIX".toList (.str [])) ∧
    lookupOption src (tarballCmd sc parent) "tarball-compress".toList =
      some (precedence src "tarball-compress".toList "TARBALL_COMPRESS".toList
        (.bool false)) := by
  have H : ∀ f ∈ tarballFlags,
      lookupOption src (tarballCmd sc parent) f.Name = some (precedenceChain src f) :=
    fun f hf => lookup_tarball sc parent src f hf
  simp only [tarballFlags, List.forall_mem_cons, cli.Flag.Name, cli.Flag.EnvVar,
    cli.Flag.Default, precedenceChain] at H
  exact ⟨H.1, H.2.1, H.2.2.1⟩

theorem lookups_database (src : Sources) (cmd : cli.Command)
    (H : ∀ f ∈ databaseFlags, lookupOption src cmd f.Name = some (precedenceChain src f)) :
    lookupOption src cmd "database-host".toList =
      some (precedence src "database-host".toList "DATABASE_HOST".toList (.str [])) ∧
    lookupOption src cmd "database-port".toList =
      some (precedence src "database-port".toList "DATABASE_PORT".toList (.str [])) ∧
    lookupOption src cmd "database-name".toList =
      some (precedence src "database-name".toList "DATABASE_NAME".toList (.str [])) ∧
    lookupOption src cmd "database-user".toList =
      some (precedence src "database-user".toList "DATABASE_USER".toList (.str [])) ∧
    lookupOption src cmd "database-password".toList =
      some (precedence src "database-password".toList "DATABASE_PASSWORD".toList
        (.str [])) ∧
    lookupOption src cmd "database-options".toList =
      some (precedence src "database-options".toList "DATABASE_OPTIONS".toList (.str [])) ∧
    lookupOption src cmd "database-compress".toList =
      some (precedence src "database-compress".toList "DATABASE_COMPRESS".toList
        (.bool false)) ∧
    lookupOption src cmd "database-ignore-exit-code".toList =
      some (precedence src "database-ignore-exit-code".toList
        "DATABASE_IGNORE_EXIT_CODE".toList (.bool false)) := by
  simp only [databaseFlags, List.forall_mem_cons, cli.Flag.Name, cli.Flag.EnvVar,
    cli.Flag.Default, precedenceChain] at H
  obtain ⟨h0, h1, h2, h3, h4, _, h6, h7, h8, _⟩ := H
  exact ⟨h0, h1, h2, h3, h4, h6, h7, h8⟩

theorem lookup_postgres_custom (sc : StoreCmds) (parent : GoString) (src : Sources) :
    lookupOption src (postgresCmd sc parent) "postgres-custom".toList =
      some (precedence src "postgres-custom".toList "POSTGRES_CUSTOM_FORMAT".toList
        (.bool false)) := by
  have H : ∀ f ∈ postgresFlags,
      lookupOption src (postgresCmd sc parent) f.Name = some (precedenceChain src f) :=
    fun f hf => lookup_postgres sc parent src f (List.mem_append_right _ hf)
  simp only [postgresFlags, List.forall_mem_cons, cli.Flag.Name, cli.Flag.EnvVar,
    cli.Flag.Default, precedenceChain] at H
  exact H.1

theorem String_of_lookup (src : Sources) (cmd : cli.Command) (app : cli.Context)
    (name : GoString) (v : cli.Value) (h : lookupOption src cmd name = some v) :
    (commandContext src cmd app).String name = v.asString := by
  simp [commandContext, cli.Context.String, h]

theorem Bool_of_lookup (src : Sources) (cmd : cli.Command) (app : cli.Context)
    (name : GoString) (v : cli.Value) (h : lookupOption src cmd name = some v) :
    (commandContext src cmd app).Bool name = v.asBool := by
  simp [commandContext, cli.Context.Bool, h]

theorem GlobalString_commandContext (src : Sources) (cmd : cli.Command) (app : cli.Context)
    (name : GoString) : (commandContext src cmd app).GlobalString name = app.String name :=
  rfl

/-- C9: each of the four service commands builds its configuration-file hook from the
very flag list it declares, so every option a service command declares resolves, in the
context of that command, to the flag value if given, else the environment variable if
set, else the configuration-file value if present, else the default.  The options the
commands declare are listed with their environment variables and defaults, and each
builder, run under the context of its command, returns the record whose fields are the
resolved values of the options of those names (the password after the value-or-file
indirection, whose failure is the only way a builder fails); `gogs-data` falls back to
`/data`.  The option `database-password-file` is declared and resolved like the others;
no builder under src/ reads it. -/
theorem config_precedence (sc : StoreCmds) (parent : GoString) (src : Sources)
    (cmd : cli.Command)
    (hcmd : cmd ∈ [gogsCmd sc parent, postgresCmd sc parent, mysqlCmd sc parent,
      tarballCmd sc parent]) :
    cmd.Before = applyConfigValues cmd.Flags ∧
    (∀ f ∈ cmd.Flags, lookupOption src cmd f.Name = some (precedenceChain src f)) ∧
    (∀ f ∈ cmd.Flags, ∀ app : cli.Context,
      (commandContext src cmd app).String f.Name = (precedenceChain src f).asString ∧
      (commandContext src cmd app).Bool f.Name = (precedenceChain src f).asBool) ∧
    ((gogsCmd sc parent).Flags.map cli.Flag.option =
        [("gogs-config".toList, "GOGS_CONFIG".toList, .str []),
         ("gogs-data".toList, "GOGS_DATA".toList, .str "/data".toList)] ∧
      (mysqlCmd sc parent).Flags.map cli.Flag.option =
        [("database-host".toList, "DATABASE_HOST".toList, .str []),
         ("database-port".toList, "DATABASE_PORT".toList, .str []),
         ("database-name".toList, "DATABASE_NAME".toList, .str []),
         ("database-user".toList, "DATABASE_USER".toList, .str []),
         ("database-password".toList, "DATABASE_PASSWORD".toList, .str []),
         ("database-password-file".toList, "DATABASE_PASSWORD_FILE".toList, .str []),
         ("database-options".toList, "DATABASE_OPTIONS".toList, .str []),
         ("database-compress".toList, "DATABASE_COMPRESS".toList, .bool false),
         ("database-ignore-exit-code".toList, "DATABASE_IGNORE_EXIT_CODE".toList,
           .bool false)] ∧
      (postgresCmd sc parent).Flags.map cli.Flag.option =
        (mysqlCmd sc parent).Flags.map cli.Flag.option ++
          [("postgres-custom".toList, "POSTGRES_CUSTOM_FORMAT".toList, .bool false)] ∧
      (tarballCmd sc parent).Flags.map cli.Flag.option =
        [("tarball-path".toList, "TARBALL_PATH_SOURCE".toList, .str []),
         ("tarball-name".toList, "TARBALL_NAME_PREFIX".toList, .str []),
         ("tarball-compress".toList, "TARBALL_COMPRESS".toList, .bool false)]) ∧
    (∀ app leaf : cli.Context, leaf.Parent = some (commandContext src (gogsCmd sc parent) app) →
      newGogsConfig leaf = .ok
        { ConfigPath :=
            (precedence src "gogs-config".toList "GOGS_CONFIG".toList (.str [])).asString
          DataPath :=
            (precedence src "gogs-data".toList "GOGS_DATA".toList
              (.str "/data".toList)).asString
          SaveDir := app.String "savedir".toList }) ∧
    (src.flag "gogs-data".toList = none → src.env "GOGS_DATA".toList = none →
      src.file "gogs-data".toList = none →
      (precedence src "gogs-data".toList "GOGS_DATA".toList (.str "/data".toList)).asString =
        "/data".toList) ∧
    (∀ app leaf : cli.Context,
      leaf.Parent = some (commandContext src (tarballCmd sc parent) app) →
      newTarballConfig leaf = .ok
        { Path :=
            (precedence src "tarball-path".toList "TARBALL_PATH_SOURCE".toList
              (.str [])).asString
          Name :=
            (precedence src "tarball-name".toList "TARBALL_NAME_PREFIX".toList
              (.str [])).asString
          Compress :=
            (precedence src "tarball-compress".toList "TARBALL_COMPRESS".toList
              (.bool false)).asBool
          SaveDir := app.String "savedir".toList }) ∧
    (∀ (fs : GoString → FileState) (app leaf : cli.Context),
      leaf.Parent = some (commandContext src (mysqlCmd sc parent) app) →
      newMysqlConfig fs leaf =
        (resolveSecret fs
          (precedence src "database-password".toList "DATABASE_PASSWORD".toList
            (.str [])).asString).map
          (fun password =>
            ({ Host :=
                (precedence src "database-host".toList "DATABASE_HOST".toList
                  (.str [])).asString
               Port :=
                (precedence src "database-port".toList "DATABASE_PORT".toList
                  (.str [])).asString
               User :=
                (precedence src "database-user".toList "DATABASE_USER".toList
                  (.str [])).asString
               Password := password
               Database :=
                (precedence src "database-name".toList "DATABASE_NAME".toList
                  (.str [])).asString
               Options :=
                (precedence src "database-options".toList "DATABASE_OPTIONS".toList
                  (.str [])).asString
               Compress :=
                (precedence src "database-compress".toList "DATABASE_COMPRESS".toList
                  (.bool false)).asBool
               SaveDir := app.String "savedir".toList
               IgnoreExitCode :=
                (precedence src "database-ignore-exit-code".toList
                  "DATABASE_IGNORE_EXIT_CODE".toList (.bool false)).asBool } :
              services.MySQLConfig))) ∧
    (∀ (fs : GoString → FileState) (app leaf : cli.Context),
      leaf.Parent = some (commandContext src (postgresCmd sc parent) app) →
      newPostgresConfig fs leaf =
        (resolveSecret fs
          (precedence src "database-password".toList "DATABASE_PASSWORD".toList
            (.str [])).asString).map
          (fun password =>
            ({ Host :=
                (precedence src "database-host".toList "DATABASE_HOST".toList
                  (.str [])).asString
               Port :=
                (precedence src "database-port".toList "DATABASE_PORT".toList
                  (.str [])).asString
               User :=
                (precedence src "database-user".toList "DATABASE_USER".toList
                  (.str [])).asString
               Password := password
               Database :=
                (precedence src "database-name".toList "DATABASE_NAME".toList
                  (.str [])).asString
               Options :=
                (precedence src "database-options".toList "DATABASE_OPTIONS".toList
                  (.str [])).asString
               Compress :=
                (precedence src "database-compress".toList "DATABASE_COMPRESS".toList
                  (.bool false)).asBool
               Custom :=
                (precedence src "postgres-custom".toList "POSTGRES_CUSTOM_FORMAT".toList
                  (.bool false)).asBool
               SaveDir := app.String "savedir".toList
               IgnoreExitCode :=
                (precedence src "database-ignore-exit-code".toList
                  "DATABASE_IGNORE_EXIT_CODE".toList (.bool false)).asBool } :
              services.PostgresConfig))) := by
  have hlook : ∀ f ∈ cmd.Flags, lookupOption src cmd f.Name = some (precedenceChain src f) := by
    intro f hf
    simp only [List.mem_cons, List.mem_singleton, List.not_mem_nil, or_false] at hcmd
    rcases hcmd with h | h | h | h <;> subst h
    · exact lookup_gogs sc parent src f hf
    · exact lookup_postgres sc parent src f hf
    · exact lookup_mysql sc parent src f hf
    · exact lookup_tarball sc parent src f hf
  refine ⟨?_, hlook, ?_, ⟨rfl, rfl, rfl, rfl⟩, ?_, ?_, ?_, ?_, ?_⟩
  · simp only [List.mem_cons, List.mem_singleton, List.not_mem_nil, or_false] at hcmd
    rcases hcmd with h | h | h | h <;> subst h <;> rfl
  · intro f hf app
    exact ⟨String_of_lookup src cmd app _ _ (hlook f hf),
      Bool_of_lookup src cmd app _ _ (hlook f hf)⟩
  · intro app leaf hp
    obtain ⟨h0, h1⟩ := lookups_gogs sc parent src
    simp only [newGogsConfig, hp]
    rw [String_of_lookup src _ app _ _ h0, String_of_lookup src _ app _ _ h1,
      GlobalString_commandContext]
  · intro h1 h2 h3
    unfold precedence
    rw [h1, h2, h3]
    rfl
  · intro app leaf hp
    obtain ⟨h0, h1, h2⟩ := lookups_tarball sc parent src
    simp only [newTarballConfig, hp]
    rw [String_of_lookup src _ app _ _ h0, String_of_lookup src _ app _ _ h1,
      Bool_of_lookup src _ app _ _ h2, GlobalString_commandContext]
  · intro fs app leaf hp
    obtain ⟨h0, h1, h2, h3, h4, h6, h7, h8⟩ :=
      lookups_database src (mysqlCmd sc parent) (fun f hf => lookup_mysql sc parent src f hf)
    simp only [newMysqlConfig, fileOrString, hp]
    rw [String_of_lookup src _ app _ _ h0, String_of_lookup src _ app _ _ h1,
      String_of_lookup src _ app _ _ h2, String_of_lookup src _ app _ _ h3,
      String_of_lookup src _ app _ _ h4, String_of_lookup src _ app _ _ h6,
      Bool_of_lookup src _ app _ _ h7, Bool_of_lookup src _ app _ _ h8,
      GlobalString_commandContext]
    cases resolveSecret fs
      (precedence src "database-password".toList "DATABASE_PASSWORD".toList (.str [])).asString <;>
      rfl
  · intro fs app leaf hp
    obtain ⟨h0, h1, h2, h3, h4, h6, h7, h8⟩ :=
      lookups_database src (postgresCmd sc parent)
        (fun f hf => lookup_postgres sc parent src f (List.mem_append_left _ hf))
    have h9 := lookup_postgres_custom sc parent src
    simp only [newPostgresConfig, fileOrString, hp]
    rw [String_of_lookup src _ app _ _ h0, String_of_lookup src _ app _ _ h1,
      String_of_lookup src _ app _ _ h2, String_of_lookup src _ app _ _ h3,
      String_of_lookup src _ app _ _ h4, String_of_lookup src _ app _ _ h6,
      Bool_of_lookup src _ app _ _ h7, Bool_of_lookup src _ app _ _ h8,
      Bool_of_lookup src _ app _ _ h9, GlobalString_commandContext]
    cases resolveSecret fs
      (precedence src "database-password".toList "DATABASE_PASSWORD".toList (.str [])).asString <;>
      rfl

/-- C9, at the mysql command with all four layers in play: `database-host` is given as
a flag, in the environment and in the configuration file (the flag wins),
`database-port` in the environment and in the file (the environment wins),
`database-user` and `database-compress` in the file only, `database-name` nowhere (the
default), and `DATABASE_PASSWORD` names the readable file `/run/secrets/db_password`
holding `hunter2`: `newMysqlConfig` returns the record of the resolved values. -/
theorem config_precedence_witness :
    newMysqlConfig
        (fun p => if p = "/run/secrets/db_password".toList
          then .readable "hunter2\n".toList else .absent)
        (.mk (fun _ => []) (fun _ => false) (fun _ => []) (fun _ => []) (fun _ => false)
          (some (commandContext
            ⟨fun n => if n = "database-host".toList then some (.str "db.example.org".toList)
                else none,
              fun v => if v = "DATABASE_HOST".toList then some (.str "env-host".toList)
                else if v = "DATABASE_PORT".toList then some (.str "3307".toList)
                else if v = "DATABASE_PASSWORD".toList
                  then some (.str "/run/secrets/db_password".toList)
                else none,
              fun k => if k = "database-host".toList then some (.str "file-host".toList)
                else if k = "database-port".toList then some (.str "3306".toList)
                else if k = "database-user".toList then some (.str "backup".toList)
                else if k = "database-compress".toList then some (.bool true)
                else none⟩
            (mysqlCmd ⟨fun _ n => .mk n [] [] ⟨[]⟩ [], fun _ n => .mk n [] [] ⟨[]⟩ []⟩
              "backup".toList)
            (.mk (fun n => if n = "savedir".toList then "/backups".toList else [])
              (fun _ => false) (fun _ => []) (fun _ => []) (fun _ => false) none)))) =
      .ok { Host := "db.example.org".toList
            Port := "3307".toList
            User := "backup".toList
            Password := "hunter2".toList
            Database := []
            Options := []
            Compress := true
            SaveDir := "/backups".toList
            IgnoreExitCode := false } :=
  (config_precedence ⟨fun _ n => .mk n [] [] ⟨[]⟩ [], fun _ n => .mk n [] [] ⟨[]⟩ []⟩
      "backup".toList
      ⟨fun n => if n = "database-host".toList then some (.str "db.example.org".toList)
          else none,
        fun v => if v = "DATABASE_HOST".toList then some (.str "env-host".toList)
          else if v = "DATABASE_PORT".toList then some (.str "3307".toList)
          else if v = "DATABASE_PASSWORD".toList
            then some (.str "/run/secrets/db_password".toList)
          else none,
        fun k => if k = "database-host".toList then some (.str "file-host".toList)
          else if k = "database-port".toList then some (.str "3306".toList)
          else if k = "database-user".toList then some (.str "backup".toList)
          else if k = "database-compress".toList then some (.bool true)
          else none⟩
      (mysqlCmd ⟨fun _ n => .mk n [] [] ⟨[]⟩ [], fun _ n => .mk n [] [] ⟨[]⟩ []⟩
        "backup".toList)
      (.tail _ (.tail _ (.head _)))).2.2.2.2.2.2.2.1
    (fun p => if p = "/run/secrets/db_password".toList
      then .readable "hunter2\n".toList else .absent)
    (.mk (fun n => if n = "savedir".toList then "/backups".toList else [])
      (fun _ => false) (fun _ => []) (fun _ => []) (fun _ => false) none)
    _ rfl

/-- C8: with the password option set to `/run/secrets/db_password`, an existing file
holding `hunter2` and a newline, the value-or-file resolution of the option is
`hunter2`, and `newMysqlConfig` and `newPostgresConfig` of `services.go` store it; but
`NewMysqlConfig` and `NewPostgresConfig` of `config.go` store the raw option string
`/run/secrets/db_password` in `Password`. -/
theorem config_password_not_resolved :
    let secret : GoString → FileState := fun p =>
      if p = "/run/secrets/db_password".toList then .readable "hunter2\n".toList else .absent
    let c : cli.Context :=
      .mk (fun n => if n = "password".toList ∨ n = "database-password".toList
            then "/run/secrets/db_password".toList else [])
        (fun _ => false) (fun _ => []) (fun _ => []) (fun _ => false) none
    let leaf : cli.Context :=
      .mk (fun _ => []) (fun _ => false) (fun _ => []) (fun _ => []) (fun _ => false) (some c)
    resolveSecret secret (c.String "password".toList) = .ok "hunter2".toList ∧
    (newMysqlConfig secret leaf).map (fun cfg => cfg.Password) = .ok "hunter2".toList ∧
    (newPostgresConfig secret leaf).map (fun cfg => cfg.Password) = .ok "hunter2".toList ∧
    (cmd.NewMysqlConfig c).Password = "/run/secrets/db_password".toList ∧
    (cmd.NewPostgresConfig c).Password = "/run/secrets/db_password".toList ∧
    (cmd.NewMysqlConfig c).Password ≠ "hunter2".toList := by
  refine ⟨rfl, rfl, rfl, rfl, rfl, ?_⟩
  decide

end main

end GoS3Backup
